import Mathlib

/-!
Verification development for the `javascript-d3-data-visualization` repository.

This file gives a shallow embedding, in Lean 4, of the data-processing and
statistics pipeline (`DataProcessor`, `statistics.js`), the event bus
(`EventManager.js`) and the timer handling of the real-time chart
(`RealTimeChart.js`), and proves or refutes the specification claims about
them.

Modelling conventions:
* JavaScript numbers are modelled as exact rationals (`ℚ`).  Floating-point
  rounding is outside the model; the algorithms under study only use
  field operations and comparisons, which agree with `ℚ` on the inputs the
  claims quantify over.  `NaN` is representable only indirectly: the coercion
  `jsToNumber` returns `none` where JavaScript would produce `NaN`.
* JavaScript string→number coercion is modelled by two distinct functions,
  because the language has two distinct grammars: `jsStrToNum` renders
  `Number(string)` / the `isNaN` test (whitespace-trimmed; empty coerces to
  `0`; optionally signed decimal literal with fraction and exponent; unsigned
  `0x`/`0b`/`0o` radix literals), while `jsParseFloat` renders
  `parseFloat(string)` (the longest decimal-literal prefix, `NaN` when there
  is none).  The two disagree on radix literals — `Number('0x10') = 16` but
  `parseFloat('0x10') = 0` — which is exactly the divergence exercised by
  `cleanData`'s `!isNaN(value)` guard followed by `parseFloat(value)`.  The
  non-rational `Infinity` literal is outside both modelled grammars.
* Objects are ordered association lists (JavaScript string-keyed insertion
  order); `item[k] = v` updates the key in place if present, else appends,
  which `setF` mirrors.
* In-place mutation is modelled by `...Run` wrappers returning the pair
  (state of the caller's array after the call, return value).
-/

/-! ## JavaScript value model -/

/-- A JavaScript scalar value as it occurs in the repository's datasets:
number, string, boolean, `null` or `undefined`. -/
inductive JVal where
  | num (q : ℚ)
  | str (s : String)
  | bool (b : Bool)
  | null
  | undef
deriving DecidableEq

/-- A JavaScript object (record): an insertion-ordered association list from
field names to values. -/
abbrev JRecord := List (String × JVal)

/-- A top-level dataset entry: either a record object or a bare value
(`null`/`undefined` entries occur in dirty datasets; primitives can also
appear). -/
inductive JItem where
  | val (v : JVal)
  | obj (r : JRecord)
deriving DecidableEq

/-- Property read `r[k]`: first binding of `k`, `undefined` if absent. -/
def getF (r : JRecord) (k : String) : JVal :=
  match r with
  | [] => JVal.undef
  | (k', v) :: rest => if k' = k then v else getF rest k

/-- Property write `r[k] = v`: updates the first binding of `k` in place,
appends a new binding if `k` is absent (JavaScript insertion order). -/
def setF (r : JRecord) (k : String) (v : JVal) : JRecord :=
  match r with
  | [] => [(k, v)]
  | (k', v') :: rest => if k' = k then (k, v) :: rest else (k', v') :: setF rest k v

/-- Member access `item[k]` on a dataset entry.  On a record it is `getF`;
on a primitive it yields `undefined`.  (In JavaScript, member access on
`null`/`undefined` throws a `TypeError`; the claims' theorems restrict
datasets so that this total rendering agrees with the source.) -/
def getItemField (i : JItem) (k : String) : JVal :=
  match i with
  | .obj r => getF r k
  | .val _ => JVal.undef

/-! ## JavaScript numeric coercion (decimal grammar) -/

/-- Whitespace trim on the character list of a string (models
`String.prototype.trim` for the usual whitespace characters). -/
def trimChars (cs : List Char) : List Char :=
  ((cs.dropWhile Char.isWhitespace).reverse.dropWhile Char.isWhitespace).reverse

/-- Value of a digit string; `none` on any non-digit.  The empty list gives
`some 0` (callers check emptiness where JavaScript does). -/
def digitsVal (cs : List Char) : Option ℕ :=
  cs.foldl
    (fun acc c =>
      acc.bind (fun n => if c.isDigit then some (10 * n + (c.toNat - 48)) else none))
    (some 0)

/-- Unsigned decimal mantissa: `123`, `123.45`, `.45`, `123.`; anything else
is `none`. -/
def decMantissa (cs : List Char) : Option ℚ :=
  let ip := cs.takeWhile Char.isDigit
  let rest := cs.drop ip.length
  match rest with
  | [] =>
    if ip.isEmpty then none
    else (digitsVal ip).map (fun n => (n : ℚ))
  | c :: frac =>
    if c = '.' then
      if frac.all Char.isDigit then
        if ip.isEmpty && frac.isEmpty then none
        else
          match digitsVal ip, digitsVal frac with
          | some a, some b => some ((a : ℚ) + (b : ℚ) / ((10 : ℚ) ^ frac.length))
          | _, _ => none
      else none
    else none

/-- Unsigned mantissa with optional exponent part. -/
def jsStrToNumCore (t1 : List Char) : Option ℚ :=
  let mant := t1.takeWhile (fun c => c != 'e' && c != 'E')
  let erest := t1.drop mant.length
  match erest with
  | [] => decMantissa mant
  | _ :: etail =>
    let epos : Bool := match etail with
      | '-' :: _ => false
      | _ => true
    let edig := match etail with
      | '+' :: r => r
      | '-' :: r => r
      | r => r
    if edig.isEmpty || !edig.all Char.isDigit then none
    else
      match decMantissa mant, digitsVal edig with
      | some m, some e =>
        some (m * (if epos then (10 : ℚ) ^ e else ((10 : ℚ) ^ e)⁻¹))
      | _, _ => none

/-- Value of one hexadecimal digit (`0-9a-fA-F`); `none` otherwise. -/
def hexDigitVal (c : Char) : Option ℕ :=
  if c.isDigit then some (c.toNat - 48)
  else if 97 ≤ c.toNat ∧ c.toNat ≤ 102 then some (c.toNat - 87)
  else if 65 ≤ c.toNat ∧ c.toNat ≤ 70 then some (c.toNat - 55)
  else none

/-- Value of one binary digit; `none` otherwise. -/
def binDigitVal (c : Char) : Option ℕ :=
  if c = '0' then some 0 else if c = '1' then some 1 else none

/-- Value of one octal digit (`0-7`); `none` otherwise. -/
def octDigitVal (c : Char) : Option ℕ :=
  if c.isDigit ∧ c.toNat ≤ 55 then some (c.toNat - 48) else none

/-- Value of the digit part of a radix literal: `none` when the digit list
is empty or contains a character that is not a digit of the radix. -/
def radixVal (dv : Char → Option ℕ) (base : ℕ) (cs : List Char) : Option ℕ :=
  if cs.isEmpty then none
  else cs.foldl (fun acc c => acc.bind (fun n => (dv c).map (fun d => base * n + d))) (some 0)

/-- The optionally signed decimal branch of `Number(string)`. -/
def jsStrToNumSigned (t : List Char) : Option ℚ :=
  match t with
  | '-' :: r => (jsStrToNumCore r).map (fun m => -m)
  | '+' :: r => jsStrToNumCore r
  | r => jsStrToNumCore r

/-- JavaScript `Number(string)` — also the `!isNaN(value)` guard of
`cleanData` and the string case of the coercion `+v`.  Whitespace-trimmed;
the empty string coerces to `0`; a `0x`/`0X`, `0b`/`0B` or `0o`/`0O` radix
literal (unsigned — the `StringNumericLiteral` grammar admits a sign only
on decimals, so `Number('-0x10')` is `NaN`); otherwise an optionally
signed decimal mantissa with optional exponent.  `none` plays the role of
`NaN`.  (The non-rational `Infinity` literal is outside the modelled
grammar.)  `Number` and `parseFloat` (`jsParseFloat`) disagree on radix
literals: `Number('0x10') = 16` but `parseFloat('0x10') = 0`. -/
def jsStrToNum (s : String) : Option ℚ :=
  let t := trimChars s.data
  if t.isEmpty then some 0
  else
    match t with
    | '0' :: c :: r =>
      if c = 'x' ∨ c = 'X' then (radixVal hexDigitVal 16 r).map (fun n => (n : ℚ))
      else if c = 'b' ∨ c = 'B' then (radixVal binDigitVal 2 r).map (fun n => (n : ℚ))
      else if c = 'o' ∨ c = 'O' then (radixVal octDigitVal 8 r).map (fun n => (n : ℚ))
      else jsStrToNumSigned t
    | _ => jsStrToNumSigned t

/-- JavaScript `parseFloat(string)` — the value `cleanData` actually
assigns.  After leading whitespace, the LONGEST prefix that is an
optionally signed decimal literal (integer digits, optional `.fraction`,
optional well-formed exponent) is parsed and everything after it is
ignored; `none` (`NaN`) when no such prefix exists.  `parseFloat` knows no
radix literals: on `'0x10'` the parsed prefix is `'0'`, giving `0` where
`Number` reads 16.  (The `Infinity` prefix is outside the modelled
grammar.) -/
def jsParseFloat (s : String) : Option ℚ :=
  let t := s.data.dropWhile Char.isWhitespace
  let neg : Bool := match t with
    | '-' :: _ => true
    | _ => false
  let t1 := match t with
    | '-' :: r => r
    | '+' :: r => r
    | r => r
  let ip := t1.takeWhile Char.isDigit
  let rest1 := t1.drop ip.length
  let fp := match rest1 with
    | '.' :: r => r.takeWhile Char.isDigit
    | _ => []
  let rest2 := match rest1 with
    | '.' :: r => r.drop (r.takeWhile Char.isDigit).length
    | r => r
  if ip.isEmpty && fp.isEmpty then none
  else
    let mant : ℚ := ((digitsVal ip).getD 0 : ℚ) + ((digitsVal fp).getD 0 : ℚ) / (10 : ℚ) ^ fp.length
    let scaled : ℚ :=
      match rest2 with
      | c :: er =>
        if c = 'e' ∨ c = 'E' then
          let epos : Bool := match er with
            | '-' :: _ => false
            | _ => true
          let ed := match er with
            | '-' :: ds => ds.takeWhile Char.isDigit
            | '+' :: ds => ds.takeWhile Char.isDigit
            | ds => ds.takeWhile Char.isDigit
          if ed.isEmpty then mant
          else
            mant * (if epos then (10 : ℚ) ^ ((digitsVal ed).getD 0)
              else ((10 : ℚ) ^ ((digitsVal ed).getD 0))⁻¹)
        else mant
      | [] => mant
    some (if neg then -scaled else scaled)

/-- JavaScript numeric coercion `+v` / `Number(v)` on scalar values; `none`
models `NaN`. -/
def jsToNumber : JVal → Option ℚ
  | .num q => some q
  | .str s => jsStrToNum s
  | .bool b => some (if b then 1 else 0)
  | .null => some 0
  | JVal.undef => none

/-! ## Numeric list helpers (`d3-array` primitives over `ℚ`) -/

/-- `values.sort(d3.ascending)`: stable ascending sort of a fresh numeric
array, rendered as insertion sort. -/
def sortQ (l : List ℚ) : List ℚ := l.insertionSort (· ≤ ·)

/-- `d3.min` over an already-filtered numeric list. -/
def listMin : List ℚ → Option ℚ
  | [] => none
  | x :: xs => some (xs.foldl min x)

/-- `d3.max` over an already-filtered numeric list. -/
def listMax : List ℚ → Option ℚ
  | [] => none
  | x :: xs => some (xs.foldl max x)

/-- Sum of a numeric list (`d3.sum` after coercion filtering). -/
def listSum (l : List ℚ) : ℚ := l.foldr (· + ·) 0

/-- `d3.mean` over an already-filtered numeric list. -/
def meanQ (l : List ℚ) : Option ℚ :=
  if l.length = 0 then none else some (listSum l / (l.length : ℚ))

/-- `d3.variance`: sample variance (denominator `n - 1`); `undefined`
(`none`) for fewer than two values.  `d3.deviation` is its square root,
which is irrational in general; the claims never inspect it, and the
z-score branch below uses the algebraically equivalent squared comparison. -/
def varianceQ (l : List ℚ) : Option ℚ :=
  if l.length < 2 then none
  else
    match meanQ l with
    | none => none
    | some m => some (listSum (l.map (fun x => (x - m) ^ 2)) / ((l.length : ℚ) - 1))

/-- `d3.quantile` on a sorted array (R-7 / linear interpolation, exactly the
`d3-array` formula): `none` on empty input; clamps at the endpoints;
otherwise interpolates between the two neighbouring order statistics. -/
def d3quantile (v : List ℚ) (p : ℚ) : Option ℚ :=
  let n := v.length
  if n = 0 then none
  else if p ≤ 0 ∨ n < 2 then some (v.headD 0)
  else if 1 ≤ p then some (v.getLastD 0)
  else
    let h : ℚ := ((n : ℚ) - 1) * p
    let i0 : ℕ := (⌊h⌋).toNat
    let v0 := v.getD i0 0
    let v1 := v.getD (i0 + 1) 0
    some (v0 + (v1 - v0) * (h - (i0 : ℚ)))

/-- `d3.median`: quantile 0.5 of the sorted values. -/
def medianQ (l : List ℚ) : Option ℚ := d3quantile (sortQ l) (mkRat 1 2)

/-- First-encounter-order deduplication: the key order produced by
`d3.group`'s insertion-ordered map. -/
def dedupFirst {α : Type} [DecidableEq α] : List α → List α
  | [] => []
  | x :: xs => x :: dedupFirst (xs.filter (fun y => decide (y ≠ x)))
termination_by l => l.length
decreasing_by
  simpa using Nat.lt_succ_of_le (List.length_filter_le _ xs)

/-! ## DataProcessor (`src/core/DataProcessor.js`) -/

/-- The `typeof item !== 'object'` early return in `cleanData`'s map:
primitives pass through unchanged.  (`typeof null === 'object'`, but `null`
entries are filtered out before the map runs, so that branch is
unreachable.) -/
def typeofIsObject : JItem → Bool
  | .obj _ => true
  | .val .null => true
  | .val _ => false

/-- `cleanData`'s per-field conversion: a string value passing
`!isNaN(value) && value.trim() !== ''` — i.e. `Number(value)` is not `NaN`
(`jsStrToNum` is `some`) and the string is not whitespace-only — is
replaced by `parseFloat(value)` (`jsParseFloat`, NOT the guard's grammar);
every other value is untouched.  The mismatch between the guard and the
conversion is observable: on `'0x10'` the guard passes (`Number` reads 16)
yet `parseFloat` stores the decimal-prefix value `0`.  Within the modelled
grammar `jsParseFloat` is never `none` once the guard holds; the
fallthrough branch merely keeps the definition total. -/
def convertVal : JVal → JVal
  | .str s =>
    if (jsStrToNum s).isSome && !(trimChars s.data).isEmpty then
      match jsParseFloat s with
      | some q => .num q
      | none => .str s
    else .str s
  | v => v

/-- The body of `cleanData`'s map: copy the record (`{ ...item }`) and
convert each field; non-objects are returned unchanged. -/
def cleanItem : JItem → JItem
  | .obj r => .obj (r.map (fun p => (p.1, convertVal p.2)))
  | i => i

/-- `DataProcessor.cleanData` on an array: drop `null`/`undefined` top-level
entries, then fix string-number fields.  (The non-array case is handled by
`cleanDataJ`.) -/
def cleanDataFn (data : List JItem) : List JItem :=
  (data.filter
    (fun i => decide (i ≠ JItem.val JVal.null) && decide (i ≠ JItem.val JVal.undef))).map
    cleanItem

/-- `handleOutliers` / `normalizeValues` find their numeric columns from the
FIRST item only: `const firstItem = data[0] || {}` followed by
`Object.keys(firstItem).filter(key => typeof firstItem[key] === 'number')`.
A falsy or primitive first entry yields no keys. -/
def numericColumnsOf (data : List JItem) : List String :=
  match data with
  | .obj r :: _ => (r.filter (fun p => match p.2 with | .num _ => true | _ => false)).map Prod.fst
  | _ => []

/-- `data.map(item => item[column]).filter(val => typeof val === 'number')`. -/
def columnNums (data : List JItem) (col : String) : List ℚ :=
  data.filterMap (fun i =>
    match getItemField i col with
    | .num q => some q
    | _ => none)

/-- Exact rational decision of the irrational comparison `a < b * √w`
(for `w ≥ 0`), by sign analysis and squaring:
* `b ≥ 0` (so `b√w ≥ 0`): true when `a < 0`; for `a ≥ 0` both sides are
  nonnegative and the comparison squares to `a² < b²w`;
* `b < 0` (so `b√w ≤ 0`): requires `a < 0`, and then negating both sides
  gives `-a > (-b)√w` with both sides nonnegative, which squares to
  `a² > b²w`.
All quantities stay in `ℚ`, so the square-root-free test is equivalent to
the source's floating `a < b * Math.sqrt(w)` for every sign of `b`. -/
def ltSqrtMul (a b w : ℚ) : Bool :=
  if 0 ≤ b then decide (a < 0) || (decide (0 ≤ a) && decide (a ^ 2 < b ^ 2 * w))
  else decide (a < 0) && decide (b ^ 2 * w < a ^ 2)

/-- Outlier test for one value of one column, given the column's numeric
values, following `handleOutliers`' three bound policies.
* `iqr`: `d3.quantile` bounds `[q1 - t*iqr, q3 + t*iqr]`, strict comparisons.
* `zscore`: the source computes the bounds `mean ± t * std` with
  `std = sqrt(variance)` and tests `v < mean - t*std || v > mean + t*std`.
  Each disjunct is decided exactly by `ltSqrtMul`:
  `v < mean - t*std ↔ v - mean < (-t)*std` and
  `v > mean + t*std ↔ mean - v < (-t)*std`, for every sign of `t`.
  When fewer than two values exist, `d3.deviation` is `undefined`, the
  bounds are `NaN` and every comparison is false.
* `percentile`: `d3.quantile` at `t/100` and `1 - t/100`.
* any other method name leaves both bounds `undefined`, so the comparisons
  are false (and the flag is still assigned, as in the source's final
  `forEach`). -/
def isOutlierVal (method : String) (threshold : ℚ) (values : List ℚ) (v : ℚ) : Bool :=
  if method = "iqr" then
    let sorted := sortQ values
    let q1 := (d3quantile sorted (mkRat 1 4)).getD 0
    let q3 := (d3quantile sorted (mkRat 3 4)).getD 0
    let iqr := q3 - q1
    decide (v < q1 - threshold * iqr ∨ q3 + threshold * iqr < v)
  else if method = "zscore" then
    match meanQ values, varianceQ values with
    | some m, some var2 =>
      ltSqrtMul (v - m) (-threshold) var2 || ltSqrtMul (m - v) (-threshold) var2
    | _, _ => false
  else if method = "percentile" then
    let sorted := sortQ values
    let lower := (d3quantile sorted (threshold / 100)).getD 0
    let upper := (d3quantile sorted (1 - threshold / 100)).getD 0
    decide (v < lower ∨ upper < v)
  else false

/-- The body of `handleOutliers`' final `forEach`: on an item whose `col`
value is a number, assign `item[col + '_isOutlier']` the boolean outlier
verdict of that value against the column's numeric values; any other item
is left untouched. -/
def flagItem (method : String) (threshold : ℚ) (values : List ℚ) (col : String)
    (i : JItem) : JItem :=
  match i with
  | .obj r =>
    match getF r col with
    | .num q =>
      .obj (setF r (col ++ "_isOutlier") (.bool (isOutlierVal method threshold values q)))
    | _ => i
  | _ => i

/-- One iteration of `handleOutliers`' per-column loop: recompute the
column's numeric values from the (possibly already flagged) data, skip the
column if none, else run `flagItem` over every item. -/
def flagColumn (method : String) (threshold : ℚ) (d : List JItem) (col : String) :
    List JItem :=
  let values := columnNums d col
  if values.length = 0 then d
  else d.map (flagItem method threshold values col)

/-- `DataProcessor.handleOutliers` on an array: numeric columns are taken
from the first item only, and flags are assigned onto the caller's records
in place (see `handleOutliersRun`). -/
def handleOutliersFn (data : List JItem) (method : String) (threshold : ℚ) : List JItem :=
  (numericColumnsOf data).foldl (flagColumn method threshold) data

/-- `normalizeValues`' numeric columns: numeric in the first item and not
already a `_isOutlier` flag. -/
def normalizeColumnsOf (data : List JItem) : List String :=
  match data with
  | .obj r :: _ =>
    (r.filter (fun p =>
      (match p.2 with | .num _ => true | _ => false) && !(p.1.endsWith "_isOutlier"))).map Prod.fst
  | _ => []

/-- One iteration of `normalizeValues`' per-column loop: skip the column if
it has no numeric values or zero range, else assign
`item[col + '_normalized'] = (v - min) / (max - min)` on numeric items. -/
def normColumn (d : List JItem) (col : String) : List JItem :=
  let values := columnNums d col
  if values.length = 0 then d
  else
    let mn := (listMin values).getD 0
    let mx := (listMax values).getD 0
    if mx - mn = 0 then d
    else
      d.map (fun i =>
        match i with
        | .obj r =>
          match getF r col with
          | .num q => .obj (setF r (col ++ "_normalized") (.num ((q - mn) / (mx - mn))))
          | _ => i
        | _ => i)

/-- `DataProcessor.normalizeValues` on an array. -/
def normalizeFn (data : List JItem) : List JItem :=
  (normalizeColumnsOf data).foldl normColumn data

/-- Aggregation switch of `groupBy` (`aggregateFunction.toLowerCase()`,
unknown names default to sum).  `d3.sum`/`d3.mean`/... skip values whose
numeric coercion is `NaN`; `undefined` results are modelled as `JVal.undef`. -/
def aggregateValue (vals : List JVal) (fn : String) : JVal :=
  let nums := vals.filterMap (fun v =>
    match v with
    | .null => none
    | JVal.undef => none
    | v => jsToNumber v)
  let low := fn.toLower
  if low = "count" then .num (vals.length : ℚ)
  else if low = "avg" ∨ low = "average" ∨ low = "mean" then
    match meanQ nums with
    | some m => .num m
    | none => JVal.undef
  else if low = "min" then
    match listMin nums with
    | some m => .num m
    | none => JVal.undef
  else if low = "max" then
    match listMax nums with
    | some m => .num m
    | none => JVal.undef
  else if low = "median" then
    match medianQ nums with
    | some m => .num m
    | none => JVal.undef
  else .num (listSum nums)

/-- The output row `{ [field]: key, [aggregateField]: aggregatedValue,
count: values.length }` built with JavaScript object-literal semantics
(later keys override earlier equal keys). -/
def mkGroupRow (field aggregateField : String) (key : JVal) (grp : List JItem)
    (fn : String) : JItem :=
  .obj (setF (setF (setF [] field key)
      aggregateField (aggregateValue (grp.map (fun i => getItemField i aggregateField)) fn))
      "count" (.num (grp.length : ℚ)))

/-- Keys of `d3.group(data, d => d[field])` in first-encounter order. -/
def groupKeys (data : List JItem) (field : String) : List JVal :=
  dedupFirst (data.map (fun i => getItemField i field))

/-- The group of one key: the records whose `field` value equals it, in
dataset order. -/
def groupOf (data : List JItem) (field : String) (k : JVal) : List JItem :=
  data.filter (fun i => decide (getItemField i field = k))

/-- `DataProcessor.groupBy` on an array: `d3.group` by `d[field]`, then one
aggregation row per group. -/
def groupByFn (data : List JItem) (field aggregateField fn : String) : List JItem :=
  (groupKeys data field).map
    (fun k => mkGroupRow field aggregateField k (groupOf data field k) fn)

/-- A filter condition value: exact equality, array membership, or a
`{min?, max?}` range object.  A range object with both bounds `undefined`
falls through all three branches of the source and ends at
`item[key] === value`, comparing the item value with a fresh object
reference, which is false. -/
inductive CondV where
  | exactV (v : JVal)
  | memV (vs : List JVal)
  | rangeV (lo hi : Option ℚ)
deriving DecidableEq

/-- JavaScript `a >= b` with a numeric right-hand side: numeric coercion of
the left side; false when the coercion is `NaN`. -/
def jsGeB (a : JVal) (b : ℚ) : Bool :=
  match jsToNumber a with
  | some x => decide (b ≤ x)
  | none => false

/-- JavaScript `a <= b` with a numeric right-hand side. -/
def jsLeB (a : JVal) (b : ℚ) : Bool :=
  match jsToNumber a with
  | some x => decide (x ≤ b)
  | none => false

/-- One key's condition in `DataProcessor.filter`. -/
def condHolds (i : JItem) : String × CondV → Bool
  | (k, .exactV v) => decide (getItemField i k = v)
  | (k, .memV vs) => decide (getItemField i k ∈ vs)
  | (k, .rangeV (some lo) (some hi)) => jsGeB (getItemField i k) lo && jsLeB (getItemField i k) hi
  | (k, .rangeV (some lo) none) => jsGeB (getItemField i k) lo
  | (k, .rangeV none (some hi)) => jsLeB (getItemField i k) hi
  | (_, .rangeV none none) => false

/-- `DataProcessor.filter` on an array: all conditions must hold (logical
AND); an empty condition object returns the data unchanged. -/
def filterFn (data : List JItem) (conds : List (String × CondV)) : List JItem :=
  if conds.isEmpty then data
  else data.filter (fun i => conds.all (condHolds i))

/-- JavaScript `a < b` between field values as used by `sort`'s comparator:
string-to-string comparisons are lexicographic, otherwise both sides are
numerically coerced and compared (false when either coercion is `NaN`).
(For mixed/exotic operands JavaScript's full abstract comparison has more
cases; the claims never exercise them.) -/
def jsLtV (a b : JVal) : Bool :=
  match a, b with
  | .str x, .str y => decide (x < y)
  | _, _ =>
    match jsToNumber a, jsToNumber b with
    | some x, some y => decide (x < y)
    | _, _ => false

/-- `DataProcessor.sort` on an array: `[...data].sort(comparator)` — a
stable sort of a fresh array sharing the record references, rendered as an
insertion sort with the source's comparator (`0` on `===`-equal values,
else direction given by `<`). -/
def sortLe (f : String) (asc : Bool) (a b : JItem) : Bool :=
  let va := getItemField a f
  let vb := getItemField b f
  decide (va = vb) || (if asc then jsLtV va vb else jsLtV vb va)

def insertSortedBy {α : Type} (le : α → α → Bool) (x : α) : List α → List α
  | [] => [x]
  | y :: ys => if le x y then x :: y :: ys else y :: insertSortedBy le x ys

def sortFn (data : List JItem) (f : String) (asc : Bool) : List JItem :=
  data.foldr (insertSortedBy (sortLe f asc)) []

/-- One field's summary in `DataProcessor.calculateStatistics`.  The zero
branch stores `null` in each field and omits `sum`/`q1`/`q3`; both absence
and `null`/`undefined` are modelled as `none`.  `std` in the source is
`d3.deviation`, the square root of the sample variance; the square root is
irrational in general, so the squared value (the variance itself) is what
the model stores, under the name `stdSq`. -/
structure StatRow where
  count : ℕ
  statMin : Option ℚ
  statMax : Option ℚ
  mean : Option ℚ
  median : Option ℚ
  stdSq : Option ℚ
  sum : Option ℚ
  q1 : Option ℚ
  q3 : Option ℚ
deriving DecidableEq

/-- `DataProcessor.getNumericFields`: the first item's keys that hold a
number somewhere in the dataset.  (`Object.keys(data[0])` on a primitive
first item yields no keys.) -/
def getNumericFields (data : List JItem) : List String :=
  match data with
  | [] => []
  | first :: _ =>
    match first with
    | .obj r =>
      (r.map Prod.fst).filter (fun k =>
        data.any (fun i => match getItemField i k with | .num _ => true | _ => false))
    | .val _ => []

/-- Summary of one field over the dataset. -/
def statRowOf (data : List JItem) (f : String) : StatRow :=
  let values := columnNums data f
  if values.length = 0 then
    { count := 0, statMin := none, statMax := none, mean := none,
      median := none, stdSq := none, sum := none, q1 := none, q3 := none }
  else
    { count := values.length
      statMin := listMin values
      statMax := listMax values
      mean := meanQ values
      median := medianQ values
      stdSq := varianceQ values
      sum := some (listSum values)
      q1 := d3quantile (sortQ values) (mkRat 1 4)
      q3 := d3quantile (sortQ values) (mkRat 3 4) }

/-- `DataProcessor.calculateStatistics` on an array: one summary per
requested field (or per numeric field when none is given). -/
def calculateStatisticsFn (data : List JItem) (field : Option String) :
    List (String × StatRow) :=
  let fields := match field with
    | some f => [f]
    | none => getNumericFields data
  fields.map (fun f => (f, statRowOf data f))

/-- Processing options of `DataProcessor.process` (instance options merged
with call options). -/
structure ProcOptions where
  cleanData : Bool
  normalizeValues : Bool
  detectOutliers : Bool
  outlierMethod : String
  outlierThreshold : ℚ
deriving DecidableEq

/-- The constructor defaults of `DataProcessor`. -/
def defaultProcOptions : ProcOptions :=
  { cleanData := true, normalizeValues := false, detectOutliers := true,
    outlierMethod := "iqr", outlierThreshold := mkRat 3 2 }

/-- `JSON.parse(JSON.stringify(v))` on a record field: `undefined`-valued
fields are dropped by `JSON.stringify`. -/
def jsonCopyField (v : JVal) : Option JVal :=
  match v with
  | JVal.undef => none
  | v => some v

/-- `JSON.parse(JSON.stringify(item))` on a dataset entry: `undefined`
array entries become `null`; records lose their `undefined` fields. -/
def jsonCopyItem : JItem → JItem
  | JItem.val JVal.undef => JItem.val JVal.null
  | .obj r => .obj (r.filterMap (fun p => (jsonCopyField p.2).map (fun v => (p.1, v))))
  | i => i

/-- The deep copy `JSON.parse(JSON.stringify(data))` at the top of
`process`. -/
def jsonDeepCopy (data : List JItem) : List JItem := data.map jsonCopyItem

/-- `DataProcessor.process` on an array: deep copy, then
clean → outlier flagging → normalization, each toggled by the options. -/
def processFn (data : List JItem) (o : ProcOptions) : List JItem :=
  let d0 := jsonDeepCopy data
  let d1 := if o.cleanData then cleanDataFn d0 else d0
  let d2 := if o.detectOutliers then handleOutliersFn d1 o.outlierMethod o.outlierThreshold
    else d1
  if o.normalizeValues then normalizeFn d2 else d2

/-! ### Argument checking and error kinds

`Array.isArray(data)` guards every `DataProcessor` method; the thrown value
is `new Error('Data must be an array')` — an `Error`, not a `TypeError`. -/

/-- The JavaScript error classes thrown in the modelled code. -/
inductive JsErr where
  | plainError (msg : String)
  | typeError (msg : String)
  | referenceError (msg : String)
deriving DecidableEq

/-- A primary argument as seen by `Array.isArray`: an array of items, or
any non-array value. -/
inductive JsArg where
  | nonArray
  | arr (d : List JItem)
deriving DecidableEq

def cleanDataJ : JsArg → Except JsErr (List JItem)
  | .nonArray => .error (.plainError "Data must be an array")
  | .arr d => .ok (cleanDataFn d)

def handleOutliersJ (a : JsArg) (method : String) (threshold : ℚ) :
    Except JsErr (List JItem) :=
  match a with
  | .nonArray => .error (.plainError "Data must be an array")
  | .arr d => .ok (handleOutliersFn d method threshold)

def normalizeValuesJ : JsArg → Except JsErr (List JItem)
  | .nonArray => .error (.plainError "Data must be an array")
  | .arr d => .ok (normalizeFn d)

def groupByJ (a : JsArg) (field aggregateField fn : String) :
    Except JsErr (List JItem) :=
  match a with
  | .nonArray => .error (.plainError "Data must be an array")
  | .arr d => .ok (groupByFn d field aggregateField fn)

def filterJ (a : JsArg) (conds : List (String × CondV)) : Except JsErr (List JItem) :=
  match a with
  | .nonArray => .error (.plainError "Data must be an array")
  | .arr d => .ok (filterFn d conds)

def sortJ (a : JsArg) (f : String) (asc : Bool) : Except JsErr (List JItem) :=
  match a with
  | .nonArray => .error (.plainError "Data must be an array")
  | .arr d => .ok (sortFn d f asc)

def calculateStatisticsJ (a : JsArg) (field : Option String) :
    Except JsErr (List (String × StatRow)) :=
  match a with
  | .nonArray => .error (.plainError "Data must be an array")
  | .arr d => .ok (calculateStatisticsFn d field)

/-! ### In-place mutation profile

Each `...Run` definition returns the pair (state of the caller's array
after the call, returned value).  `cleanData` (filter + map over spread
copies), `groupBy` (fresh row objects), `filter` (`Array.prototype.filter`),
`sort` (`[...data].sort`, comparator reads only) and `calculateStatistics`
(map/filter into fresh arrays; the in-place `values.sort` at line 368 sorts
a fresh mapped array) never write to the argument or its records, so the
first component is the argument itself.  `process` deep-copies at entry and
mutates only the copy.  `handleOutliers` and `normalizeValues` assign
`item[...] = ...` directly on the caller's records and return the same
(now mutated) array, so both components are the mutated array. -/

def cleanDataRun (d : List JItem) : List JItem × List JItem := (d, cleanDataFn d)

def handleOutliersRun (d : List JItem) (method : String) (threshold : ℚ) :
    List JItem × List JItem :=
  (handleOutliersFn d method threshold, handleOutliersFn d method threshold)

def normalizeValuesRun (d : List JItem) : List JItem × List JItem :=
  (normalizeFn d, normalizeFn d)

def groupByRun (d : List JItem) (field aggregateField fn : String) :
    List JItem × List JItem :=
  (d, groupByFn d field aggregateField fn)

def filterRun (d : List JItem) (conds : List (String × CondV)) :
    List JItem × List JItem :=
  (d, filterFn d conds)

def sortRun (d : List JItem) (f : String) (asc : Bool) : List JItem × List JItem :=
  (d, sortFn d f asc)

def calculateStatisticsRun (d : List JItem) (field : Option String) :
    List JItem × List (String × StatRow) :=
  (d, calculateStatisticsFn d field)

def processRun (d : List JItem) (o : ProcOptions) : List JItem × List JItem :=
  (d, processFn d o)

/-! ## Statistics module (`src/utils/statistics.js`) -/

/-- The validity filter `v !== null && v !== undefined && !isNaN(v)` used
throughout `statistics.js` (`isNaN` coerces, so numeric strings and
booleans pass). -/
def isValidNum (field : String) (i : JItem) : Bool :=
  match getItemField i field with
  | .null => false
  | JVal.undef => false
  | v => (jsToNumber v).isSome

/-- The numeric value of a valid entry (its JavaScript coercion). -/
def coercedNum (field : String) (i : JItem) : ℚ :=
  (jsToNumber (getItemField i field)).getD 0

/-- The all-zero summary object returned by `generateStatistics` for
non-array, empty, or no-valid-value input. -/
structure GenStats where
  count : ℕ
  sum : ℚ
  mean : ℚ
  median : ℚ
  statMin : ℚ
  statMax : ℚ
  range : ℚ
  varianceSq : Option ℚ
  stdDevSq : Option ℚ
deriving DecidableEq

/-- The `{count: 0, sum: 0, ...}` object (`variance`/`stdDev` are the
number `0` there; represented as `some 0`). -/
def zeroGenStats : GenStats :=
  { count := 0, sum := 0, mean := 0, median := 0, statMin := 0, statMax := 0,
    range := 0, varianceSq := some 0, stdDevSq := some 0 }

/-- `generateStatistics(data, valueField)`: never throws — non-array or
empty input returns the all-zero summary.  `variance` is `d3.variance`
(sample variance, `undefined` below two values) and `stdDev` its square
root; as the root is irrational in general both are represented by the
variance value (`varianceSq`/`stdDevSq`), which the claims never
inspect numerically. -/
def generateStatisticsJ (a : JsArg) (valueField : String) : GenStats :=
  match a with
  | .nonArray => zeroGenStats
  | .arr data =>
    if data.length = 0 then zeroGenStats
    else
      let valids := data.filter (isValidNum valueField)
      if valids.length = 0 then zeroGenStats
      else
        let values := valids.map (coercedNum valueField)
        let mn := (listMin values).getD 0
        let mx := (listMax values).getD 0
        { count := values.length
          sum := listSum values
          mean := (meanQ values).getD 0
          median := (medianQ values).getD 0
          statMin := mn
          statMax := mx
          range := mx - mn
          varianceSq := varianceQ values
          stdDevSq := varianceQ values }

/-- The IQR outlier bounds of `detectOutliers`: sort the values, take the
`d3.quantile` quartiles, and return
`(q1 - threshold*iqr, q3 + threshold*iqr)`. -/
def iqrBounds (values : List ℚ) (threshold : ℚ) : ℚ × ℚ :=
  let sorted := sortQ values
  let q1 := (d3quantile sorted (mkRat 1 4)).getD 0
  let q3 := (d3quantile sorted (mkRat 3 4)).getD 0
  let iqr := q3 - q1
  (q1 - threshold * iqr, q3 + threshold * iqr)

/-- `detectOutliers(data, field, method, threshold)`: the valid entries are
paired with their records; the matching entries' original records are
returned.  Non-array or empty input returns `[]` (no exception).  The
`zscore` branch tests `|v - mean| / std > t`; with `std > 0` this is
`v - mean > t*std ∨ mean - v > t*std`, each disjunct decided exactly by
`ltSqrtMul` for every sign of `t`; a `std` of zero returns `[]`, and with
fewer than two values `std` is `undefined` (`NaN` comparisons, no
outliers).  The quantile branches sort the COERCED values; the source
sorts the raw field values with `d3.ascending`, which agrees whenever the
valid entries' field values are genuine numbers — the scope the claims'
theorems quantify over (a field mixing numeric strings into the isNaN
filter would be sorted differently). -/
def detectOutliersJ (a : JsArg) (field method : String) (threshold : ℚ) : List JItem :=
  match a with
  | .nonArray => []
  | .arr data =>
    if data.length = 0 then []
    else
      let valids := data.filter (isValidNum field)
      if valids.length = 0 then []
      else
        let nums := valids.map (coercedNum field)
        if method = "iqr" then
          let b := iqrBounds nums threshold
          valids.filter (fun i => decide (coercedNum field i < b.1 ∨ b.2 < coercedNum field i))
        else if method = "zscore" then
          match meanQ nums, varianceQ nums with
          | some m, some var2 =>
            if var2 = 0 then []
            else valids.filter (fun i =>
              ltSqrtMul (coercedNum field i - m) (-threshold) var2 ||
                ltSqrtMul (m - coercedNum field i) (-threshold) var2)
          | _, _ => []
        else if method = "percentile" then
          let sorted := sortQ nums
          let lower := (d3quantile sorted (threshold / 100)).getD 0
          let upper := (d3quantile sorted (1 - threshold / 100)).getD 0
          valids.filter (fun i => decide (coercedNum field i < lower ∨ upper < coercedNum field i))
        else []

/-- A categorical row `{category, count, frequency}` of
`calculateFrequencyDistribution`. -/
structure CatRow where
  category : JVal
  count : ℕ
  frequency : ℚ
deriving DecidableEq

/-- `calculateFrequencyDistribution(data, field, bins)`.

Non-array/empty input returns `[]`.  The branch is chosen by
`typeof data[0][field] === 'number'`.

The numeric branch computes the valid values; when none remain it returns
`[]`; otherwise it evaluates `d3.histogram().domain(...).thresholds(bins)`.
At that point the body-scoped `const bins = histogram(values)` declared
three lines below shadows the `bins` parameter, so the read of `bins`
inside `.thresholds(bins)` hits the temporal dead zone of the inner
binding and throws `ReferenceError: Cannot access bins before
initialization`.  The numeric branch therefore never returns bins.

The categorical branch counts occurrences per distinct value
(`d3.rollup`, insertion order) and sorts by descending count
(stable sort, comparator `b.count - a.count`). -/
def calculateFrequencyDistributionJ (a : JsArg) (field : String) (bins : ℕ) :
    Except JsErr (List CatRow) :=
  match a with
  | .nonArray => .ok []
  | .arr data =>
    if data.length = 0 then .ok []
    else
      let _ := bins
      match getItemField (data.headD (JItem.val JVal.undef)) field with
      | .num _ =>
        let valids := data.filter (isValidNum field)
        if valids.length = 0 then .ok []
        else .error (.referenceError "Cannot access bins before initialization")
      | _ =>
        let keys := dedupFirst (data.map (fun i => getItemField i field))
        let rows := keys.map (fun k =>
          let c := (data.filter (fun i => decide (getItemField i field = k))).length
          { category := k, count := c, frequency := (c : ℚ) / (data.length : ℚ) : CatRow })
        .ok (rows.foldr (insertSortedBy (fun x y => decide (y.count ≤ x.count))) [])

/-! ## EventManager (`src/core/EventManager.js`) -/

/-- A registered callback.  Function identity (what `off`'s
`cb !== callback` compares) is modelled by the numeric ids.
* `plain id throws`: a subscriber callback; `throws` says whether invoking
  it raises.
* `onceWrap wid id throws`: the fresh closure `onceCallback` created by
  `once(event, callback)` — `wid` is the closure's own identity, `id`/
  `throws` describe the wrapped user callback.  Its body runs
  `callback(data)` and only then `this.off(event, onceCallback)`, so when
  the user callback throws, the self-removal is skipped. -/
inductive CB where
  | plain (id : ℕ) (throws : Bool)
  | onceWrap (wid : ℕ) (id : ℕ) (throws : Bool)
deriving DecidableEq

/-- The id of the user callback a registration invokes. -/
def cbInner : CB → ℕ
  | .plain i _ => i
  | .onceWrap _ i _ => i

/-- `this.events`: a string-keyed object of callback arrays. -/
abbrev EMState := List (String × List CB)

def emFind (st : EMState) (e : String) : Option (List CB) :=
  (st.find? (fun p => decide (p.1 = e))).map Prod.snd

/-- The currently registered callbacks for an event name (empty when the
bucket is absent). -/
def emListeners (st : EMState) (e : String) : List CB :=
  (emFind st e).getD []

/-- Update the bucket of an existing key in place (JavaScript property
write); append when absent (new property, insertion order). -/
def emSet (st : EMState) (e : String) (v : List CB) : EMState :=
  match st with
  | [] => [(e, v)]
  | (k, w) :: rest => if k = e then (e, v) :: rest else (k, w) :: emSet rest e v

/-- `delete this.events[event]`. -/
def emErase (st : EMState) (e : String) : EMState :=
  st.filter (fun p => decide (p.1 ≠ e))

/-- `on(event, callback)`: create the bucket if needed and push. -/
def emOn (st : EMState) (e : String) (cb : CB) : EMState :=
  match emFind st e with
  | none => emSet st e [cb]
  | some cbs => emSet st e (cbs ++ [cb])

/-- `off(event, callback)`: filter out the callback (all `===`-identical
occurrences); delete the bucket when it becomes empty. -/
def emOff (st : EMState) (e : String) (cb : CB) : EMState :=
  match emFind st e with
  | none => st
  | some cbs =>
    let cbs2 := cbs.filter (fun c => decide (c ≠ cb))
    if cbs2.length = 0 then emErase st e else emSet st e cbs2

/-- Invoking one callback during `emit`: returns the state after the call,
the invocation of the user callback (id, payload), and whether the call
threw (the exception is caught and logged by `emit`'s `try`/`catch`).
A non-throwing `onceWrap` removes itself via `off`; a throwing one skips
the removal because the exception aborts `onceCallback` first. -/
def invokeCB (st : EMState) (e : String) (d : JVal) (cb : CB) :
    EMState × List (ℕ × JVal) × Bool :=
  match cb with
  | .plain i t => (st, [(i, d)], t)
  | .onceWrap w i t =>
    if t then (st, [(i, d)], true)
    else (emOff st e (.onceWrap w i t), [(i, d)], false)

/-- `emit`'s `forEach` over the bucket array captured at entry: the
snapshot is iterated even if a callback replaces the stored bucket, and a
caught exception does not stop the iteration. -/
def emitList (st : EMState) (e : String) (d : JVal) : List CB → EMState × List (ℕ × JVal)
  | [] => (st, [])
  | cb :: rest =>
    let step := invokeCB st e d cb
    let restRun := emitList step.1 e d rest
    (restRun.1, step.2.1 ++ restRun.2)

/-- `emit(event, data)`: no bucket, no work; otherwise iterate the snapshot.
Returns the state after the emit and the trace of user-callback
invocations in order. -/
def emEmit (st : EMState) (e : String) (d : JVal) : EMState × List (ℕ × JVal) :=
  match emFind st e with
  | none => (st, [])
  | some cbs => emitList st e d cbs

/-- `once(event, callback)`: registers a fresh wrapper closure. -/
def emOnce (st : EMState) (e : String) (wid id : ℕ) (throws : Bool) : EMState :=
  emOn st e (.onceWrap wid id throws)

/-! ## RealTimeChart (`RealTimeChart.js`) -/

/-- The timer-relevant state of a `RealTimeChart` together with the
environment's interval table: `timer` is the instance field (`null` at
construction), `active` the handles of currently scheduled intervals, and
`nextHandle` the next handle `setInterval` would allocate (browsers
allocate positive integers, so a fresh world starts at 1). -/
structure RTWorld where
  timer : Option ℕ
  active : List ℕ
  nextHandle : ℕ
deriving DecidableEq

/-- The truthiness test `if (this.timer)` (`null` and `0` are falsy). -/
def jsTruthyTimer : Option ℕ → Bool
  | some t => decide (t ≠ 0)
  | none => false

/-- `clearInterval(t)`: unschedule the handle. -/
def clearIntervalW (w : RTWorld) (t : ℕ) : RTWorld :=
  { w with active := w.active.filter (fun x => decide (x ≠ t)) }

/-- The timer management at the end of `render()`: clear any previous
interval, then `this.timer = setInterval(...)` schedules a fresh handle. -/
def rtRenderTimer (w : RTWorld) : RTWorld :=
  let w1 := if jsTruthyTimer w.timer then clearIntervalW w (w.timer.getD 0) else w
  { timer := some w1.nextHandle
    active := w1.active ++ [w1.nextHandle]
    nextHandle := w1.nextHandle + 1 }

/-- `destroy()`: `if (this.timer) clearInterval(this.timer); this.timer =
null;` — total, no throw path. -/
def rtDestroy (w : RTWorld) : RTWorld :=
  let w1 := if jsTruthyTimer w.timer then clearIntervalW w (w.timer.getD 0) else w
  { w1 with timer := none }

/-! ## Concrete demo datasets used by the witnesses -/

/-- The spec scenario dataset `[{cat:'A',v:10},{cat:'B',v:20},{cat:'C',v:15}]`. -/
def demoCatData : List JItem :=
  [JItem.obj [("cat", JVal.str "A"), ("v", JVal.num 10)],
   JItem.obj [("cat", JVal.str "B"), ("v", JVal.num 20)],
   JItem.obj [("cat", JVal.str "C"), ("v", JVal.num 15)]]

/-- The spec scenario value array `[1,2,3,4,100]` as records over field `v`. -/
def demoOutlierData : List JItem :=
  [JItem.obj [("v", JVal.num 1)], JItem.obj [("v", JVal.num 2)],
   JItem.obj [("v", JVal.num 3)], JItem.obj [("v", JVal.num 4)],
   JItem.obj [("v", JVal.num 100)]]

/-! ## General lemmas -/

theorem getF_setF_self (r : JRecord) (k : String) (v : JVal) :
    getF (setF r k v) k = v := by
  induction r with
  | nil => simp [getF, setF]
  | cons p rest ih =>
    by_cases h : p.1 = k
    · simp [getF, setF, h]
    · simp [getF, setF, h, ih]

theorem getF_setF_ne (r : JRecord) (k k' : String) (v : JVal) (h : k' ≠ k) :
    getF (setF r k' v) k = getF r k := by
  induction r with
  | nil => simp [getF, setF, h]
  | cons p rest ih =>
    by_cases hp : p.1 = k'
    · simp [getF, setF, hp, h]
    · simp only [setF, hp, if_false, getF]
      by_cases hk : p.1 = k
      · simp [hk]
      · simp [hk, ih]

theorem dedupFirst_mem {α : Type} [DecidableEq α] (L : List α) (x : α) :
    x ∈ dedupFirst L ↔ x ∈ L := by
  induction L using dedupFirst.induct with
  | case1 => simp [dedupFirst]
  | case2 a as ih =>
    simp only [dedupFirst, List.mem_cons, ih, List.mem_filter, decide_eq_true_eq]
    constructor
    · rintro (h | ⟨h, _⟩)
      · exact Or.inl h
      · exact Or.inr h
    · rintro (rfl | h)
      · exact Or.inl rfl
      · by_cases hx : x = a
        · exact Or.inl hx
        · exact Or.inr ⟨h, hx⟩

theorem dedupFirst_count {α : Type} [DecidableEq α] (L : List α) (x : α) :
    (dedupFirst L).count x = if x ∈ L then 1 else 0 := by
  induction L using dedupFirst.induct with
  | case1 => simp [dedupFirst]
  | case2 a as ih =>
    rw [dedupFirst]
    by_cases hx : x = a
    · subst hx
      have h1 : x ∉ dedupFirst (as.filter (fun y => decide (y ≠ x))) := by
        rw [dedupFirst_mem]; simp
      rw [List.count_cons_self, List.count_eq_zero.mpr h1]
      simp
    · rw [List.count_cons_of_ne hx, ih]
      simp [List.mem_filter, List.mem_cons, hx]

theorem dedupFirst_sum_count {α : Type} [DecidableEq α] (L : List α) :
    ((dedupFirst L).map (fun k => L.count k)).sum = L.length := by
  induction L using dedupFirst.induct with
  | case1 => simp [dedupFirst]
  | case2 a as ih =>
    rw [dedupFirst]
    simp only [List.map_cons, List.sum_cons]
    have hcongr : ∀ k ∈ dedupFirst (as.filter (fun y => decide (y ≠ a))),
        (a :: as).count k = (as.filter (fun y => decide (y ≠ a))).count k := by
      intro k hk
      rw [dedupFirst_mem] at hk
      have hka : k ≠ a := by
        simp only [List.mem_filter, decide_eq_true_eq] at hk
        exact hk.2
      rw [List.count_cons_of_ne hka, List.count_filter (by simp [hka])]
    rw [List.map_congr_left hcongr, ih, List.count_cons_self]
    have hsplit : as.length =
        (as.filter (fun y => decide (y ≠ a))).length + as.count a := by
      have h1 := List.length_eq_countP_add_countP (fun y => decide (y ≠ a)) (l := as)
      rw [List.countP_eq_length_filter] at h1
      have h2 : (as.countP fun y => decide (¬(decide (y ≠ a) = true))) = as.count a := by
        unfold List.count
        congr 1
        funext y
        by_cases hy : y = a <;> simp [hy]
      rw [h1, h2]
    rw [List.length_cons]
    omega

/-! ## Claim theorems -/

/-- C10: `RealTimeChart.destroy()` cancels the periodic refresh timer — the
handle field becomes `null` and the handle is no longer scheduled — and a
second `destroy()` is a no-op that leaves the state unchanged (and, being a
total function, cannot throw).  The final conjunct supports the positivity
hypothesis: `render`'s `setInterval` only ever stores positive fresh
handles. -/
theorem rtDestroy_cancels_timer_idempotent (w : RTWorld)
    (hpos : ∀ t, w.timer = some t → 0 < t) :
    (rtDestroy w).timer = none ∧
    (∀ t, w.timer = some t → t ∉ (rtDestroy w).active) ∧
    rtDestroy (rtDestroy w) = rtDestroy w ∧
    (0 < w.nextHandle → ∀ t, (rtRenderTimer w).timer = some t → 0 < t) := by
  obtain ⟨timer, active, nextHandle⟩ := w
  cases timer with
  | none =>
    refine ⟨rfl, ?_, ?_, ?_⟩
    · intro t ht; cases ht
    · simp [rtDestroy, jsTruthyTimer]
    · intro hn t ht
      have hn' : 0 < nextHandle := hn
      have ht' : nextHandle = t := by
        simpa [rtRenderTimer, jsTruthyTimer] using ht
      omega
  | some t0 =>
    have ht0 : 0 < t0 := hpos t0 rfl
    have htr : jsTruthyTimer (some t0) = true := by
      simp [jsTruthyTimer]; omega
    refine ⟨?_, ?_, ?_, ?_⟩
    · simp [rtDestroy, htr]
    · intro t ht
      injection ht with h
      subst h
      simp [rtDestroy, htr, clearIntervalW, List.mem_filter]
    · simp [rtDestroy, htr, jsTruthyTimer, clearIntervalW]
    · intro hn t ht
      have hn' : 0 < nextHandle := hn
      have ht' : nextHandle = t := by
        simpa [rtRenderTimer, htr, clearIntervalW] using ht
      omega

/-- Witness for C10 at a chart whose render scheduled handle 1. -/
theorem rtDestroy_cancels_timer_witness :
    ((∀ t, (RTWorld.mk (some 1) [1] 2).timer = some t → 0 < t) ∧
      (rtDestroy (RTWorld.mk (some 1) [1] 2)).timer = none) ∧
    (∀ t, (RTWorld.mk (some 1) [1] 2).timer = some t →
      t ∉ (rtDestroy (RTWorld.mk (some 1) [1] 2)).active) ∧
    rtDestroy (rtDestroy (RTWorld.mk (some 1) [1] 2)) =
      rtDestroy (RTWorld.mk (some 1) [1] 2) ∧
    (0 < (RTWorld.mk (some 1) [1] 2).nextHandle →
      ∀ t, (rtRenderTimer (RTWorld.mk (some 1) [1] 2)).timer = some t → 0 < t) := by
  have hpos : ∀ t, (RTWorld.mk (some 1) [1] 2).timer = some t → 0 < t := by
    intro t ht
    injection ht with h
    omega
  obtain ⟨h1, h2, h3, h4⟩ := rtDestroy_cancels_timer_idempotent (RTWorld.mk (some 1) [1] 2) hpos
  exact ⟨⟨hpos, h1⟩, h2, h3, h4⟩

/-- C4 (counterexample): `generateStatistics` with a non-array primary
argument does not raise any error, let alone a `TypeError`-class
`InvalidInput`: it silently returns the all-zero summary object.  And the
`DataProcessor` guard that does throw (`cleanData`) throws a plain
`Error('Data must be an array')`, not a `TypeError`. -/
theorem generateStatistics_nonarray_cex :
    generateStatisticsJ .nonArray "value" = zeroGenStats ∧
    cleanDataJ .nonArray = .error (.plainError "Data must be an array") ∧
    (∀ msg, cleanDataJ .nonArray ≠ .error (.typeError msg)) := by
  refine ⟨rfl, rfl, ?_⟩
  intro msg h
  simp only [cleanDataJ, Except.error.injEq] at h
  cases h

/-- C4 (amended): when the primary argument is not an array, every
`DataProcessor` stage method throws synchronously — but a plain
`Error('Data must be an array')`, not a `TypeError`-class error — while the
statistics-module functions do not throw at all: `generateStatistics`
returns the all-zero summary and `detectOutliers` /
`calculateFrequencyDistribution` return empty arrays. -/
theorem invalid_input_profile :
    cleanDataJ .nonArray = .error (.plainError "Data must be an array") ∧
    (∀ m t, handleOutliersJ .nonArray m t = .error (.plainError "Data must be an array")) ∧
    normalizeValuesJ .nonArray = .error (.plainError "Data must be an array") ∧
    (∀ f a fn, groupByJ .nonArray f a fn = .error (.plainError "Data must be an array")) ∧
    (∀ c, filterJ .nonArray c = .error (.plainError "Data must be an array")) ∧
    (∀ f asc, sortJ .nonArray f asc = .error (.plainError "Data must be an array")) ∧
    (∀ f, calculateStatisticsJ .nonArray f = .error (.plainError "Data must be an array")) ∧
    (∀ msg, cleanDataJ .nonArray ≠ .error (.typeError msg)) ∧
    (∀ f, generateStatisticsJ .nonArray f = zeroGenStats) ∧
    (∀ f m t, detectOutliersJ .nonArray f m t = []) ∧
    (∀ f b, calculateFrequencyDistributionJ .nonArray f b = .ok []) := by
  refine ⟨rfl, fun m t => rfl, rfl, fun f a fn => rfl, fun c => rfl, fun f asc => rfl,
    fun f => rfl, ?_, fun f => rfl, fun f m t => rfl, fun f b => rfl⟩
  intro msg h
  simp only [cleanDataJ, Except.error.injEq] at h
  cases h

/-- C3 (counterexample): `handleOutliers` invoked directly on a dataset
mutates the caller's records in place — after the call the caller's array
holds records with the new `a_isOutlier` field, so it is no longer the
array that was passed in. -/
theorem handleOutliers_mutates_cex :
    (handleOutliersRun [JItem.obj [("a", JVal.num 1)]] "iqr" (mkRat 3 2)).1 ≠
      [JItem.obj [("a", JVal.num 1)]] := by
  have h : (handleOutliersRun [JItem.obj [("a", JVal.num 1)]] "iqr" (mkRat 3 2)).1 =
      [JItem.obj [("a", JVal.num 1), ("a_isOutlier", JVal.bool false)]] := by
    norm_num [handleOutliersRun, handleOutliersFn, numericColumnsOf, flagColumn,
      flagItem, columnNums, getItemField, getF, setF, isOutlierVal, sortQ,
      List.insertionSort, List.orderedInsert, d3quantile, List.filterMap]
    decide
  rw [h]
  decide

/-- C3 (amended): `process` (deep copy at entry), `cleanData`, `groupBy`,
`filter`, `sort` and `calculateStatistics` leave the caller's array and
records untouched, but the individually invoked stages `handleOutliers`
and `normalizeValues` mutate the caller's records in place (the returned
array is the caller's array with flag/normalized fields assigned onto its
records). -/
theorem pipeline_mutation_profile :
    (∀ d o, (processRun d o).1 = d) ∧
    (∀ d, (cleanDataRun d).1 = d) ∧
    (∀ d f a fn, (groupByRun d f a fn).1 = d) ∧
    (∀ d c, (filterRun d c).1 = d) ∧
    (∀ d f asc, (sortRun d f asc).1 = d) ∧
    (∀ d f, (calculateStatisticsRun d f).1 = d) ∧
    (∀ d m t, (handleOutliersRun d m t).1 = handleOutliersFn d m t) ∧
    (∀ d, (normalizeValuesRun d).1 = normalizeFn d) :=
  ⟨fun _ _ => rfl, fun _ => rfl, fun _ _ _ _ => rfl, fun _ _ => rfl,
    fun _ _ _ => rfl, fun _ _ => rfl, fun _ _ _ => rfl, fun _ => rfl⟩

/-- C2 (counterexample): the field `a` is numeric in the second record of
this dataset but string-valued in the first, and `handleOutliers` — which
collects numeric columns from `data[0]` only — returns the dataset
unchanged: no record receives an `a_isOutlier` flag. -/
theorem handleOutliers_first_record_cex :
    handleOutliersFn [JItem.obj [("a", JVal.str "x")], JItem.obj [("a", JVal.num 5)]]
      "iqr" (mkRat 3 2) =
      [JItem.obj [("a", JVal.str "x")], JItem.obj [("a", JVal.num 5)]] ∧
    getItemField ([JItem.obj [("a", JVal.str "x")],
      JItem.obj [("a", JVal.num 5)]].getD 1 (JItem.val JVal.undef)) "a" = JVal.num 5 ∧
    (∀ i ∈ handleOutliersFn [JItem.obj [("a", JVal.str "x")],
        JItem.obj [("a", JVal.num 5)]] "iqr" (mkRat 3 2),
      getItemField i "a_isOutlier" = JVal.undef) := by
  refine ⟨rfl, rfl, ?_⟩
  decide

/-- C1 (code defect): whenever the analyzed field is numeric in the first
record, `calculateFrequencyDistribution` reaches
`d3.histogram().domain(...).thresholds(bins)`, where `bins` resolves to the
body-scoped `const bins` declared below it, still in its temporal dead
zone — so the call throws a `ReferenceError` instead of returning histogram
bins. -/
theorem freqDist_numeric_branch_throws (data : List JItem) (field : String)
    (bins : ℕ) (q : ℚ)
    (hfirst : getItemField (data.headD (JItem.val JVal.undef)) field = JVal.num q) :
    calculateFrequencyDistributionJ (.arr data) field bins =
      .error (.referenceError "Cannot access bins before initialization") := by
  cases data with
  | nil => simp [getItemField] at hfirst
  | cons h rest =>
    have hh : getItemField h field = JVal.num q := hfirst
    have hvalid : isValidNum field h = true := by
      simp [isValidNum, hh, jsToNumber]
    simp only [calculateFrequencyDistributionJ, List.length_cons, List.headD_cons]
    rw [if_neg (by omega), hh]
    simp only [List.filter_cons, hvalid, if_true]
    rw [if_neg (by simp)]

/-- Witness for C1 on the dataset `[{v: 1}, {v: 2}]` with the default ten
bins requested. -/
theorem freqDist_numeric_branch_throws_witness :
    getItemField ([JItem.obj [("v", JVal.num 1)],
      JItem.obj [("v", JVal.num 2)]].headD (JItem.val JVal.undef)) "v" = JVal.num 1 ∧
    calculateFrequencyDistributionJ
      (.arr [JItem.obj [("v", JVal.num 1)], JItem.obj [("v", JVal.num 2)]]) "v" 10 =
      .error (.referenceError "Cannot access bins before initialization") :=
  ⟨rfl, freqDist_numeric_branch_throws
    [JItem.obj [("v", JVal.num 1)], JItem.obj [("v", JVal.num 2)]] "v" 10 1 rfl⟩

theorem emFind_emSet (st : EMState) (e : String) (v : List CB) :
    emFind (emSet st e v) e = some v := by
  induction st with
  | nil => simp [emFind, emSet]
  | cons p rest ih =>
    by_cases h : p.1 = e
    · obtain ⟨k, w⟩ := p
      simp only at h
      simp [emSet, emFind, h]
    · obtain ⟨k, w⟩ := p
      simp only at h
      simp only [emSet, h, if_false]
      simpa [emFind, h] using ih

theorem emFind_emErase (st : EMState) (e : String) :
    emFind (emErase st e) e = none := by
  induction st with
  | nil => simp [emFind, emErase]
  | cons p rest ih =>
    by_cases h : p.1 = e
    · simpa [emErase, h, emFind] using ih
    · simp only [emErase, List.filter_cons, decide_eq_true_eq] at ih ⊢
      rw [if_pos (by simpa using h)]
      simpa [emFind, h] using ih

theorem emitList_trace (l : List CB) (st : EMState) (e : String) (d : JVal) :
    (emitList st e d l).2 = l.map (fun cb => (cbInner cb, d)) := by
  induction l generalizing st with
  | nil => simp [emitList]
  | cons cb rest ih =>
    cases cb with
    | plain i t => simp [emitList, invokeCB, cbInner, ih]
    | onceWrap w i t =>
      cases t <;> simp [emitList, invokeCB, cbInner, ih]

/-- C8: `emit` synchronously invokes exactly the callbacks registered for
the event at the moment of the emit, in registration order, passing each
the payload — including the ones that throw (the `try`/`catch` keeps the
iteration going); `off` leaves exactly the other registrations; and the
spec's scenario: after `on('x',cb1); on('x',cb2)`, `emit('x',5)` invokes
cb1 then cb2 with 5, and after `off('x',cb1)`, `emit('x',6)` invokes only
cb2. -/
theorem emit_invokes_registered_in_order :
    (∀ (st : EMState) (e : String) (d : JVal),
      (emEmit st e d).2 = (emListeners st e).map (fun cb => (cbInner cb, d))) ∧
    (∀ (st : EMState) (e : String) (cb : CB),
      emListeners (emOff st e cb) e = (emListeners st e).filter (fun c => decide (c ≠ cb))) ∧
    ((emEmit (emOn (emOn [] "x" (.plain 1 false)) "x" (.plain 2 false)) "x"
        (JVal.num 5)).2 = [(1, JVal.num 5), (2, JVal.num 5)] ∧
      (emEmit (emOff (emEmit (emOn (emOn [] "x" (.plain 1 false)) "x" (.plain 2 false)) "x"
          (JVal.num 5)).1 "x" (.plain 1 false)) "x" (JVal.num 6)).2 = [(2, JVal.num 6)]) := by
  refine ⟨?_, ?_, by decide, by decide⟩
  · intro st e d
    cases hf : emFind st e with
    | none => simp [emEmit, hf, emListeners]
    | some cbs => simp [emEmit, hf, emListeners, emitList_trace]
  · intro st e cb
    cases hf : emFind st e with
    | none => simp [emOff, hf, emListeners]
    | some cbs =>
      simp only [emOff, hf]
      by_cases hlen : (cbs.filter (fun c => decide (c ≠ cb))).length = 0
      · rw [if_pos hlen]
        have h0 : cbs.filter (fun c => decide (c ≠ cb)) = [] :=
          List.eq_nil_of_length_eq_zero hlen
        simp only [emListeners, emFind_emErase, hf, h0, Option.getD_none, Option.getD_some]
      · rw [if_neg hlen]
        simp [emListeners, emFind_emSet, hf]

/-- C9 (counterexample): a `once` listener whose callback throws is NOT
auto-unsubscribed: `onceCallback` runs `callback(data)` before
`this.off(event, onceCallback)`, so the exception skips the removal, and a
second emit invokes the callback again. -/
theorem once_throwing_reinvoked_cex :
    (emEmit (emOnce [] "x" 7 1 true) "x" (JVal.num 5)).2 = [(1, JVal.num 5)] ∧
    emListeners (emEmit (emOnce [] "x" 7 1 true) "x" (JVal.num 5)).1 "x" =
      [CB.onceWrap 7 1 true] ∧
    (emEmit (emEmit (emOnce [] "x" 7 1 true) "x" (JVal.num 5)).1 "x"
      (JVal.num 6)).2 = [(1, JVal.num 6)] := by
  refine ⟨by decide, by decide, by decide⟩

/-- C9 (amended): a `once` listener whose callback does not throw is
invoked by the first emit of its event and unsubscribed by it, so a second
emit invokes nothing — provided no other listener was registered for the
event (`emListeners st e = []`). -/
theorem once_nonthrowing_unsubscribes (st : EMState) (e : String) (w i : ℕ)
    (d d' : JVal) (h : emListeners st e = []) :
    (emEmit (emOnce st e w i false) e d).2 = [(i, d)] ∧
    emListeners (emEmit (emOnce st e w i false) e d).1 e = [] ∧
    (emEmit (emEmit (emOnce st e w i false) e d).1 e d').2 = [] := by
  have hOn : emOnce st e w i false = emSet st e [CB.onceWrap w i false] := by
    cases hf : emFind st e with
    | none => simp [emOnce, emOn, hf]
    | some l =>
      have hl : l = [] := by
        simp only [emListeners, hf, Option.getD_some] at h
        exact h
      subst hl
      simp [emOnce, emOn, hf]
  rw [hOn]
  have h1 : emFind (emSet st e [CB.onceWrap w i false]) e =
      some [CB.onceWrap w i false] := emFind_emSet st e _
  have hOff : emOff (emSet st e [CB.onceWrap w i false]) e (CB.onceWrap w i false) =
      emErase (emSet st e [CB.onceWrap w i false]) e := by
    simp [emOff, h1]
  have hEmit1 : emEmit (emSet st e [CB.onceWrap w i false]) e d =
      (emErase (emSet st e [CB.onceWrap w i false]) e, [(i, d)]) := by
    simp [emEmit, h1, emitList, invokeCB, hOff]
  refine ⟨by rw [hEmit1], ?_, ?_⟩
  · rw [hEmit1]
    simp [emListeners, emFind_emErase]
  · rw [hEmit1]
    simp [emEmit, emFind_emErase]

/-- Witness for the amended C9 on a fresh bus. -/
theorem once_nonthrowing_unsubscribes_witness :
    emListeners ([] : EMState) "x" = [] ∧
    (emEmit (emOnce [] "x" 7 1 false) "x" (JVal.num 5)).2 = [(1, JVal.num 5)] ∧
    emListeners (emEmit (emOnce [] "x" 7 1 false) "x" (JVal.num 5)).1 "x" = [] ∧
    (emEmit (emEmit (emOnce [] "x" 7 1 false) "x" (JVal.num 5)).1 "x"
      (JVal.num 6)).2 = [] := by
  obtain ⟨h1, h2, h3⟩ :=
    once_nonthrowing_unsubscribes [] "x" 7 1 (JVal.num 5) (JVal.num 6) (by decide)
  exact ⟨by decide, h1, h2, h3⟩

theorem convertVal_idem (v : JVal) : convertVal (convertVal v) = convertVal v := by
  cases v with
  | str s =>
    by_cases hg : ((jsStrToNum s).isSome && !(trimChars s.data).isEmpty) = true
    · cases hp : jsParseFloat s with
      | some q => simp [convertVal, hg, hp]
      | none => simp [convertVal, hg, hp]
    · simp [convertVal, hg]
  | num q => rfl
  | bool b => rfl
  | null => rfl
  | undef => rfl

theorem cleanItem_idem (i : JItem) : cleanItem (cleanItem i) = cleanItem i := by
  cases i with
  | val v => rfl
  | obj r =>
    simp only [cleanItem, List.map_map]
    congr 1
    apply List.map_congr_left
    intro p _
    simp [Function.comp, convertVal_idem]

theorem cleanItem_ne_dropped (j : JItem) (h1 : j ≠ JItem.val JVal.null)
    (h2 : j ≠ JItem.val JVal.undef) :
    cleanItem j ≠ JItem.val JVal.null ∧ cleanItem j ≠ JItem.val JVal.undef := by
  cases j with
  | obj r => simp [cleanItem]
  | val v => exact ⟨h1, h2⟩

/-- C7 (counterexample): the string `'0x10'` fully parses as a number —
`Number('0x10') = 16`, so `cleanData`'s `!isNaN(value)` guard passes and
`'0x10'.trim()` is nonempty — yet `cleanData` assigns
`parseFloat('0x10') = 0`: the field is neither replaced by its numeric
value 16 nor left as the unchanged string. -/
theorem cleanData_hex_prefix_cex :
    jsStrToNum "0x10" = some 16 ∧
    cleanDataFn [JItem.obj [("a", JVal.str "0x10")]] =
      [JItem.obj [("a", JVal.num 0)]] ∧
    JVal.num 0 ≠ JVal.num 16 ∧ JVal.num 0 ≠ JVal.str "0x10" := by
  refine ⟨by decide, ?_, by decide, by decide⟩
  have hconv : convertVal (JVal.str "0x10") =
      JVal.num (((0 : ℕ) : ℚ) + ((0 : ℕ) : ℚ) / (10 : ℚ) ^ (0 : ℕ)) := by rfl
  have hlist : cleanDataFn [JItem.obj [("a", JVal.str "0x10")]] =
      [JItem.obj [("a", convertVal (JVal.str "0x10"))]] := by rfl
  rw [hlist, hconv]
  norm_num

/-- C7 (amended): `cleanData` leaves no `null`/`undefined` top-level
entries, is idempotent, and rewrites each surviving record field-wise by
`convertVal`: a string passing the source's guard — `Number(s)` is not
`NaN` and `s` is not whitespace-only — becomes the number `parseFloat`
reads from it (its full numeric value for decimal literals, but only the
decimal-prefix value for radix literals: `'0x10'` becomes 0, not 16),
while a string failing the guard and every non-string value pass through
unchanged. -/
theorem cleanData_guard_parseFloat_idempotent (D : List JItem) (r : JRecord)
    (hr : JItem.obj r ∈ D) :
    (∀ i ∈ cleanDataFn D, i ≠ JItem.val JVal.null ∧ i ≠ JItem.val JVal.undef) ∧
    cleanDataFn (cleanDataFn D) = cleanDataFn D ∧
    JItem.obj (r.map (fun p => (p.1, convertVal p.2))) ∈ cleanDataFn D ∧
    (∀ s q p, jsStrToNum s = some q → (trimChars s.data).isEmpty = false →
      jsParseFloat s = some p → convertVal (.str s) = .num p) ∧
    (∀ s, jsStrToNum s = none → convertVal (.str s) = .str s) ∧
    (∀ v, (∀ s, v ≠ JVal.str s) → convertVal v = v) := by
  have hclean : ∀ i ∈ cleanDataFn D,
      i ≠ JItem.val JVal.null ∧ i ≠ JItem.val JVal.undef := by
    intro i hi
    simp only [cleanDataFn, List.mem_map, List.mem_filter, Bool.and_eq_true,
      decide_eq_true_eq] at hi
    obtain ⟨j, ⟨_, hj1, hj2⟩, rfl⟩ := hi
    exact cleanItem_ne_dropped j hj1 hj2
  refine ⟨hclean, ?_, ?_, ?_, ?_, ?_⟩
  · have hfix : (cleanDataFn D).filter
        (fun i => decide (i ≠ JItem.val JVal.null) && decide (i ≠ JItem.val JVal.undef)) =
        cleanDataFn D := by
      apply List.filter_eq_self.mpr
      intro i hi
      have := hclean i hi
      simp [this.1, this.2]
    show ((cleanDataFn D).filter _).map cleanItem = cleanDataFn D
    rw [hfix]
    simp only [cleanDataFn, List.map_map]
    apply List.map_congr_left
    intro j _
    simp [Function.comp, cleanItem_idem]
  · have hmem : JItem.obj r ∈ D.filter
        (fun i => decide (i ≠ JItem.val JVal.null) && decide (i ≠ JItem.val JVal.undef)) := by
      apply List.mem_filter.mpr
      exact ⟨hr, by simp⟩
    simpa [cleanDataFn, cleanItem] using List.mem_map_of_mem cleanItem hmem
  · intro s q p hp ht hpf
    simp [convertVal, hp, ht, hpf]
  · intro s hp
    simp [convertVal, hp]
  · intro v hv
    cases v with
    | str s => exact absurd rfl (hv s)
    | num q => rfl
    | bool b => rfl
    | null => rfl
    | undef => rfl

/-- Witness for the amended C7 on `[null, {a: '5', b: 'x'}]`: the null
entry is dropped, `'5'` (decimal) becomes the number 5, `'x'` (`NaN`
under `Number`) survives as a string, and a second cleaning changes
nothing. -/
theorem cleanData_guard_parseFloat_idempotent_witness :
    ((∀ i ∈ cleanDataFn [JItem.val JVal.null,
        JItem.obj [("a", JVal.str "5"), ("b", JVal.str "x")]],
      i ≠ JItem.val JVal.null ∧ i ≠ JItem.val JVal.undef) ∧
    cleanDataFn (cleanDataFn [JItem.val JVal.null,
        JItem.obj [("a", JVal.str "5"), ("b", JVal.str "x")]]) =
      cleanDataFn [JItem.val JVal.null,
        JItem.obj [("a", JVal.str "5"), ("b", JVal.str "x")]] ∧
    JItem.obj ([("a", JVal.str "5"), ("b", JVal.str "x")].map
        (fun p => (p.1, convertVal p.2))) ∈
      cleanDataFn [JItem.val JVal.null,
        JItem.obj [("a", JVal.str "5"), ("b", JVal.str "x")]] ∧
    (∀ s q p, jsStrToNum s = some q → (trimChars s.data).isEmpty = false →
      jsParseFloat s = some p → convertVal (.str s) = .num p) ∧
    (∀ s, jsStrToNum s = none → convertVal (.str s) = .str s) ∧
    (∀ v, (∀ s, v ≠ JVal.str s) → convertVal v = v)) ∧
    cleanDataFn [JItem.val JVal.null,
        JItem.obj [("a", JVal.str "5"), ("b", JVal.str "x")]] =
      [JItem.obj [("a", JVal.num 5), ("b", JVal.str "x")]] := by
  refine ⟨cleanData_guard_parseFloat_idempotent
    [JItem.val JVal.null, JItem.obj [("a", JVal.str "5"), ("b", JVal.str "x")]]
    [("a", JVal.str "5"), ("b", JVal.str "x")] (by decide), ?_⟩
  have hconv5 : convertVal (JVal.str "5") =
      JVal.num (((5 : ℕ) : ℚ) + ((0 : ℕ) : ℚ) / (10 : ℚ) ^ (0 : ℕ)) := by rfl
  have hconvx : convertVal (JVal.str "x") = JVal.str "x" := by rfl
  have hlist : cleanDataFn [JItem.val JVal.null,
      JItem.obj [("a", JVal.str "5"), ("b", JVal.str "x")]] =
      [JItem.obj [("a", convertVal (JVal.str "5")),
        ("b", convertVal (JVal.str "x"))]] := by rfl
  rw [hlist, hconv5, hconvx]
  norm_num

theorem groupOf_length (data : List JItem) (f : String) (k : JVal) :
    (groupOf data f k).length = (data.map (fun i => getItemField i f)).count k := by
  induction data with
  | nil => simp [groupOf]
  | cons h t ih =>
    simp only [groupOf, List.filter_cons, List.map_cons, List.count_cons] at ih ⊢
    by_cases hk : getItemField h f = k
    · simp [hk, ih]
    · simp [hk, ih]

/-- C6: `groupBy` partitions the dataset completely — one output row per
distinct value of the group field (in first-encounter order), each row's
`count` is its group's size, the counts sum to `|D|`, no group is empty,
and every record's key matches exactly one group.  When the three row keys
do not collide (`field ≠ aggregateField`, `field ≠ 'count'`), the rows'
group-field values enumerate the distinct keys exactly once each. -/
theorem groupBy_partition (data : List JItem) (f a fn : String)
    (hobj : ∀ i ∈ data, ∃ r, i = JItem.obj r) :
    (groupByFn data f a fn).length = (groupKeys data f).length ∧
    ((groupByFn data f a fn).map (fun row => getItemField row "count")) =
      (groupKeys data f).map (fun k => JVal.num ((groupOf data f k).length : ℚ)) ∧
    ((groupKeys data f).map (fun k => (groupOf data f k).length)).sum = data.length ∧
    (∀ k ∈ groupKeys data f, (groupOf data f k).length ≠ 0) ∧
    (∀ i ∈ data, (groupKeys data f).count (getItemField i f) = 1) ∧
    (f ≠ a → f ≠ "count" →
      (groupByFn data f a fn).map (fun row => getItemField row f) = groupKeys data f) := by
  refine ⟨by simp [groupByFn], ?_, ?_, ?_, ?_, ?_⟩
  · simp only [groupByFn, List.map_map]
    apply List.map_congr_left
    intro k _
    simp [mkGroupRow, getItemField, getF_setF_self, Function.comp]
  · have hpt : ∀ k ∈ groupKeys data f,
        (groupOf data f k).length = (data.map (fun i => getItemField i f)).count k :=
      fun k _ => groupOf_length data f k
    rw [List.map_congr_left hpt]
    show ((dedupFirst _).map _).sum = _
    rw [dedupFirst_sum_count]
    simp
  · intro k hk
    rw [groupKeys, dedupFirst_mem] at hk
    obtain ⟨i, hi, hik⟩ := List.mem_map.mp hk
    have : i ∈ groupOf data f k := by
      simp [groupOf, List.mem_filter, hi, hik]
    simp [List.length_eq_zero]
    exact List.ne_nil_of_mem this
  · intro i hi
    have hk : getItemField i f ∈ data.map (fun i => getItemField i f) :=
      List.mem_map_of_mem _ hi
    rw [groupKeys, dedupFirst_count, if_pos hk]
  · intro hfa hfc
    simp only [groupByFn, List.map_map]
    have : ∀ k ∈ groupKeys data f,
        ((fun row => getItemField row f) ∘
          (fun k => mkGroupRow f a k (groupOf data f k) fn)) k = k := by
      intro k _
      simp only [Function.comp, mkGroupRow, getItemField]
      rw [getF_setF_ne _ _ _ _ (fun h => hfc h.symm),
        getF_setF_ne _ _ _ _ (fun h => hfa h.symm), getF_setF_self]
    rw [List.map_congr_left this]
    simp

/-- Witness for C6 on the spec's grouping scenario dataset. -/
theorem groupBy_partition_witness :
    (groupByFn demoCatData "cat" "v" "sum").length =
      (groupKeys demoCatData "cat").length ∧
    ((groupByFn demoCatData "cat" "v" "sum").map (fun row => getItemField row "count")) =
      (groupKeys demoCatData "cat").map
        (fun k => JVal.num ((groupOf demoCatData "cat" k).length : ℚ)) ∧
    ((groupKeys demoCatData "cat").map
      (fun k => (groupOf demoCatData "cat" k).length)).sum = demoCatData.length ∧
    (∀ k ∈ groupKeys demoCatData "cat", (groupOf demoCatData "cat" k).length ≠ 0) ∧
    (∀ i ∈ demoCatData, (groupKeys demoCatData "cat").count (getItemField i "cat") = 1) ∧
    ("cat" ≠ "v" → "cat" ≠ "count" →
      (groupByFn demoCatData "cat" "v" "sum").map (fun row => getItemField row "cat") =
        groupKeys demoCatData "cat") :=
  groupBy_partition demoCatData "cat" "v" "sum"
    (by
      intro i hi
      simp only [demoCatData, List.mem_cons, List.not_mem_nil, or_false] at hi
      rcases hi with rfl | rfl | rfl <;> exact ⟨_, rfl⟩)

theorem sorted_getD_mono (v : List ℚ) (hv : List.Sorted (· ≤ ·) v) {i j : ℕ}
    (hij : i ≤ j) (hj : j < v.length) : v.getD i 0 ≤ v.getD j 0 := by
  have hi : i < v.length := lt_of_le_of_lt hij hj
  rw [List.getD_eq_get _ _ hi, List.getD_eq_get _ _ hj]
  rcases lt_or_eq_of_le hij with h | h
  · exact List.Sorted.rel_get_of_lt hv (by simpa using h)
  · subst h; rfl

theorem d3quantile_interp (v : List ℚ) (p : ℚ) (h2 : 2 ≤ v.length)
    (hp0 : 0 < p) (hp1 : p < 1) :
    d3quantile v p =
      some (v.getD (⌊((v.length : ℚ) - 1) * p⌋.toNat) 0 +
        (v.getD (⌊((v.length : ℚ) - 1) * p⌋.toNat + 1) 0 -
          v.getD (⌊((v.length : ℚ) - 1) * p⌋.toNat) 0) *
        (((v.length : ℚ) - 1) * p - (⌊((v.length : ℚ) - 1) * p⌋.toNat : ℚ))) := by
  have h0 : ¬(v.length = 0) := by omega
  have hc1 : ¬(p ≤ 0 ∨ v.length < 2) := by
    push_neg
    exact ⟨hp0, by omega⟩
  have hc2 : ¬(1 ≤ p) := not_le.mpr hp1
  simp only [d3quantile]
  rw [if_neg h0, if_neg hc1, if_neg hc2]

theorem d3quantile_getD_mono (v : List ℚ) (hv : List.Sorted (· ≤ ·) v)
    (p p' : ℚ) (hp0 : 0 < p) (hpp : p ≤ p') (hp1 : p' < 1) :
    (d3quantile v p).getD 0 ≤ (d3quantile v p').getD 0 := by
  have hp0' : 0 < p' := lt_of_lt_of_le hp0 hpp
  have hp1p : p < 1 := lt_of_le_of_lt hpp hp1
  by_cases h0 : v.length = 0
  · simp [d3quantile, h0]
  by_cases hlt2 : v.length < 2
  · simp [d3quantile, h0, hlt2]
  have h2 : 2 ≤ v.length := by omega
  rw [d3quantile_interp v p h2 hp0 hp1p, d3quantile_interp v p' h2 hp0' hp1]
  simp only [Option.getD_some]
  set n := v.length with hn
  have hnq : (2:ℚ) ≤ (n:ℚ) := by exact_mod_cast h2
  set h1 : ℚ := ((n:ℚ) - 1) * p with hh1def
  set h2q : ℚ := ((n:ℚ) - 1) * p' with hh2def
  have hh1nn : 0 ≤ h1 := mul_nonneg (by linarith) (le_of_lt hp0)
  have hh12 : h1 ≤ h2q := mul_le_mul_of_nonneg_left hpp (by linarith)
  have hh2lt : h2q < (n:ℚ) - 1 := by
    have := mul_lt_mul_of_pos_left hp1 (show (0:ℚ) < (n:ℚ) - 1 by linarith)
    simpa [hh2def] using this
  have hf1nn : (0:ℤ) ≤ ⌊h1⌋ := Int.floor_nonneg.mpr hh1nn
  have hf2nn : (0:ℤ) ≤ ⌊h2q⌋ := Int.floor_nonneg.mpr (le_trans hh1nn hh12)
  set i0 := ⌊h1⌋.toNat with hi0def
  set j0 := ⌊h2q⌋.toNat with hj0def
  have hi0q : (i0 : ℚ) = ((⌊h1⌋ : ℤ) : ℚ) := by exact_mod_cast Int.toNat_of_nonneg hf1nn
  have hj0q : (j0 : ℚ) = ((⌊h2q⌋ : ℤ) : ℚ) := by exact_mod_cast Int.toNat_of_nonneg hf2nn
  have hfr1 : (i0:ℚ) ≤ h1 := by rw [hi0q]; exact Int.floor_le h1
  have hfr1' : h1 < (i0:ℚ) + 1 := by rw [hi0q]; exact Int.lt_floor_add_one h1
  have hfr2 : (j0:ℚ) ≤ h2q := by rw [hj0q]; exact Int.floor_le h2q
  have hfr2' : h2q < (j0:ℚ) + 1 := by rw [hj0q]; exact Int.lt_floor_add_one h2q
  have hij : i0 ≤ j0 := by
    have := Int.floor_le_floor (α := ℚ) hh12
    omega
  have hjn : j0 + 1 < n := by
    have hfl : ⌊h2q⌋ < (n:ℤ) - 1 := by
      apply Int.floor_lt.mpr
      push_cast
      exact hh2lt
    omega
  have hin : i0 + 1 < n := by omega
  have hAB : v.getD i0 0 ≤ v.getD (i0 + 1) 0 :=
    sorted_getD_mono v hv (Nat.le_succ i0) hin
  have hAB' : v.getD j0 0 ≤ v.getD (j0 + 1) 0 :=
    sorted_getD_mono v hv (Nat.le_succ j0) hjn
  rcases Nat.lt_or_ge i0 j0 with hlt | hge
  · -- i0 < j0 : value ≤ v[i0+1] ≤ v[j0] ≤ value'
    have hmid : v.getD (i0 + 1) 0 ≤ v.getD j0 0 :=
      sorted_getD_mono v hv (by omega) (by omega)
    have hup : v.getD i0 0 + (v.getD (i0+1) 0 - v.getD i0 0) * (h1 - (i0:ℚ)) ≤
        v.getD (i0 + 1) 0 := by
      have hnn : 0 ≤ (v.getD (i0+1) 0 - v.getD i0 0) * (1 - (h1 - (i0:ℚ))) :=
        mul_nonneg (by linarith) (by linarith)
      nlinarith [hnn]
    have hlow : v.getD j0 0 ≤
        v.getD j0 0 + (v.getD (j0+1) 0 - v.getD j0 0) * (h2q - (j0:ℚ)) := by
      have hnn : 0 ≤ (v.getD (j0+1) 0 - v.getD j0 0) * (h2q - (j0:ℚ)) :=
        mul_nonneg (by linarith) (by linarith)
      linarith
    linarith
  · -- i0 = j0
    have heq : i0 = j0 := by omega
    rw [heq] at hfr1 hfr1' hAB ⊢
    have hnn : 0 ≤ (v.getD (j0+1) 0 - v.getD j0 0) * (h2q - h1) :=
      mul_nonneg (by linarith) (by linarith)
    nlinarith [hnn]

/-- C5: on records whose field values are all numbers with at least four
distinct values, IQR-based `detectOutliers` with threshold 1.5 returns
exactly the records whose value lies strictly below
`q1 - 1.5*iqr` or strictly above `q3 + 1.5*iqr` (the `d3.quantile`
quartiles of the sorted values); a value exactly equal to either bound is
never returned. -/
theorem detectOutliers_iqr_strict (data : List JItem) (field : String)
    (hnum : ∀ i ∈ data, ∃ q, getItemField i field = JVal.num q)
    (hdist : 4 ≤ (dedupFirst (data.map (fun i => getItemField i field))).length) :
    (∀ i, i ∈ detectOutliersJ (.arr data) field "iqr" (mkRat 3 2) ↔
      (i ∈ data ∧ ∃ q, getItemField i field = JVal.num q ∧
        (q < (iqrBounds (data.map (coercedNum field)) (mkRat 3 2)).1 ∨
         (iqrBounds (data.map (coercedNum field)) (mkRat 3 2)).2 < q))) ∧
    (∀ i q, i ∈ data → getItemField i field = JVal.num q →
      (q = (iqrBounds (data.map (coercedNum field)) (mkRat 3 2)).1 ∨
       q = (iqrBounds (data.map (coercedNum field)) (mkRat 3 2)).2) →
      i ∉ detectOutliersJ (.arr data) field "iqr" (mkRat 3 2)) := by
  have hval : data.filter (isValidNum field) = data := by
    apply List.filter_eq_self.mpr
    intro i hi
    obtain ⟨q, hq⟩ := hnum i hi
    simp [isValidNum, hq, jsToNumber]
  have hne : data.length ≠ 0 := by
    intro h
    rw [List.length_eq_zero] at h
    subst h
    simp [dedupFirst] at hdist
  have hres : detectOutliersJ (.arr data) field "iqr" (mkRat 3 2) =
      data.filter (fun i => decide
        (coercedNum field i < (iqrBounds (data.map (coercedNum field)) (mkRat 3 2)).1 ∨
         (iqrBounds (data.map (coercedNum field)) (mkRat 3 2)).2 < coercedNum field i)) := by
    simp only [detectOutliersJ]
    rw [if_neg hne, hval, if_neg hne, if_pos trivial]
  have hiff : ∀ i, i ∈ detectOutliersJ (.arr data) field "iqr" (mkRat 3 2) ↔
      (i ∈ data ∧ ∃ q, getItemField i field = JVal.num q ∧
        (q < (iqrBounds (data.map (coercedNum field)) (mkRat 3 2)).1 ∨
         (iqrBounds (data.map (coercedNum field)) (mkRat 3 2)).2 < q)) := by
    intro i
    rw [hres, List.mem_filter]
    constructor
    · rintro ⟨hi, hp⟩
      obtain ⟨q, hq⟩ := hnum i hi
      have hcq : coercedNum field i = q := by simp [coercedNum, hq, jsToNumber]
      rw [decide_eq_true_eq, hcq] at hp
      exact ⟨hi, q, hq, hp⟩
    · rintro ⟨hi, q, hq, hout⟩
      refine ⟨hi, ?_⟩
      have hcq : coercedNum field i = q := by simp [coercedNum, hq, jsToNumber]
      rw [decide_eq_true_eq, hcq]
      exact hout
  refine ⟨hiff, ?_⟩
  intro i q hi hq hbd hmem
  obtain ⟨_, q', hq', hout⟩ := (hiff i).mp hmem
  have hqq : q' = q := by
    have := hq.symm.trans hq'
    exact (JVal.num.injEq q q').mp this |>.symm
  rw [hqq] at hout
  have hsorted : List.Sorted (· ≤ ·) (sortQ (data.map (coercedNum field))) :=
    List.sorted_insertionSort _ _
  have hQ13 : (d3quantile (sortQ (data.map (coercedNum field))) (mkRat 1 4)).getD 0 ≤
      (d3quantile (sortQ (data.map (coercedNum field))) (mkRat 3 4)).getD 0 :=
    d3quantile_getD_mono _ hsorted _ _ (by decide) (by decide) (by decide)
  have hfst : (iqrBounds (data.map (coercedNum field)) (mkRat 3 2)).1 =
      (d3quantile (sortQ (data.map (coercedNum field))) (mkRat 1 4)).getD 0 -
        mkRat 3 2 * ((d3quantile (sortQ (data.map (coercedNum field))) (mkRat 3 4)).getD 0 -
          (d3quantile (sortQ (data.map (coercedNum field))) (mkRat 1 4)).getD 0) := rfl
  have hsnd : (iqrBounds (data.map (coercedNum field)) (mkRat 3 2)).2 =
      (d3quantile (sortQ (data.map (coercedNum field))) (mkRat 3 4)).getD 0 +
        mkRat 3 2 * ((d3quantile (sortQ (data.map (coercedNum field))) (mkRat 3 4)).getD 0 -
          (d3quantile (sortQ (data.map (coercedNum field))) (mkRat 1 4)).getD 0) := rfl
  have hscale : (0:ℚ) ≤ mkRat 3 2 *
      ((d3quantile (sortQ (data.map (coercedNum field))) (mkRat 3 4)).getD 0 -
        (d3quantile (sortQ (data.map (coercedNum field))) (mkRat 1 4)).getD 0) :=
    mul_nonneg (by decide) (by linarith)
  rcases hbd with rfl | rfl
  · rw [hfst, hsnd] at hout
    rcases hout with h | h
    · linarith
    · linarith
  · rw [hfst, hsnd] at hout
    rcases hout with h | h
    · linarith
    · linarith

/-- Witness for C5 on the spec scenario `[1,2,3,4,100]` over field `v`
(five distinct values): the characterization applies, and concretely only
the record with value 100 is returned. -/
theorem detectOutliers_iqr_strict_witness :
    ((∀ i ∈ demoOutlierData, ∃ q, getItemField i "v" = JVal.num q) ∧
     4 ≤ (dedupFirst (demoOutlierData.map (fun i => getItemField i "v"))).length) ∧
    ((∀ i, i ∈ detectOutliersJ (.arr demoOutlierData) "v" "iqr" (mkRat 3 2) ↔
      (i ∈ demoOutlierData ∧ ∃ q, getItemField i "v" = JVal.num q ∧
        (q < (iqrBounds (demoOutlierData.map (coercedNum "v")) (mkRat 3 2)).1 ∨
         (iqrBounds (demoOutlierData.map (coercedNum "v")) (mkRat 3 2)).2 < q))) ∧
    (∀ i q, i ∈ demoOutlierData → getItemField i "v" = JVal.num q →
      (q = (iqrBounds (demoOutlierData.map (coercedNum "v")) (mkRat 3 2)).1 ∨
       q = (iqrBounds (demoOutlierData.map (coercedNum "v")) (mkRat 3 2)).2) →
      i ∉ detectOutliersJ (.arr demoOutlierData) "v" "iqr" (mkRat 3 2))) ∧
    detectOutliersJ (.arr demoOutlierData) "v" "iqr" (mkRat 3 2) =
      [JItem.obj [("v", JVal.num 100)]] := by
  have hnum : ∀ i ∈ demoOutlierData, ∃ q, getItemField i "v" = JVal.num q := by
    intro i hi
    simp only [demoOutlierData, List.mem_cons, List.not_mem_nil, or_false] at hi
    rcases hi with rfl | rfl | rfl | rfl | rfl <;> exact ⟨_, rfl⟩
  have hdist : 4 ≤ (dedupFirst (demoOutlierData.map (fun i => getItemField i "v"))).length := by
    norm_num [demoOutlierData, dedupFirst, getItemField, getF]
  refine ⟨⟨hnum, hdist⟩, detectOutliers_iqr_strict demoOutlierData "v" hnum hdist, ?_⟩
  norm_num [detectOutliersJ, demoOutlierData, isValidNum, coercedNum, jsToNumber,
    getItemField, getF, iqrBounds, sortQ, List.insertionSort, List.orderedInsert,
    d3quantile, List.getD, Int.toNat, List.filter]

theorem strAppend_right_cancel {a b s : String} (h : a ++ s = b ++ s) : a = b := by
  apply String.ext
  have hd := congrArg String.data h
  rw [String.data_append, String.data_append] at hd
  exact List.append_cancel_right hd

theorem flagColumn_length (m : String) (t : ℚ) (d : List JItem) (c : String) :
    (flagColumn m t d c).length = d.length := by
  simp only [flagColumn]
  by_cases h : (columnNums d c).length = 0
  · rw [if_pos h]
  · rw [if_neg h]
    simp

theorem getD_map_fix (g : JItem → JItem)
    (hg : g (JItem.val JVal.undef) = JItem.val JVal.undef)
    (d : List JItem) (n : ℕ) :
    (d.map g).getD n (JItem.val JVal.undef) = g (d.getD n (JItem.val JVal.undef)) := by
  induction d generalizing n with
  | nil => simp [hg]
  | cons h tl ih =>
    cases n with
    | zero => simp
    | succ n => simpa using ih n

theorem flagItem_getItemField_ne (m : String) (t : ℚ) (vals : List ℚ) (c k : String)
    (hk : k ≠ c ++ "_isOutlier") (i : JItem) :
    getItemField (flagItem m t vals c i) k = getItemField i k := by
  cases i with
  | val v => rfl
  | obj r =>
    cases hg : getF r c with
    | num q =>
      simp only [flagItem, hg]
      simp [getItemField, getF_setF_ne r k _ _ (fun hh => hk hh.symm)]
    | str s => simp [flagItem, hg]
    | bool b => simp [flagItem, hg]
    | null => simp [flagItem, hg]
    | undef => simp [flagItem, hg]

theorem flagItem_sets (m : String) (t : ℚ) (vals : List ℚ) (c : String) (i : JItem)
    (q : ℚ) (h : getItemField i c = JVal.num q) :
    getItemField (flagItem m t vals c i) (c ++ "_isOutlier") =
      JVal.bool (isOutlierVal m t vals q) := by
  cases i with
  | val v => simp [getItemField] at h
  | obj r =>
    have hg : getF r c = JVal.num q := h
    simp only [flagItem, hg]
    simp [getItemField, getF_setF_self]

theorem flagItem_skips (m : String) (t : ℚ) (vals : List ℚ) (c : String) (i : JItem)
    (h : ∀ q, getItemField i c ≠ JVal.num q) :
    flagItem m t vals c i = i := by
  cases i with
  | val v => rfl
  | obj r =>
    cases hg : getF r c with
    | num q => exact absurd hg (h q)
    | str s => simp [flagItem, hg]
    | bool b => simp [flagItem, hg]
    | null => simp [flagItem, hg]
    | undef => simp [flagItem, hg]

theorem flagColumn_getItemField_ne (m : String) (t : ℚ) (d : List JItem) (c k : String)
    (hk : k ≠ c ++ "_isOutlier") (n : ℕ) :
    getItemField ((flagColumn m t d c).getD n (JItem.val JVal.undef)) k =
      getItemField (d.getD n (JItem.val JVal.undef)) k := by
  simp only [flagColumn]
  by_cases h : (columnNums d c).length = 0
  · rw [if_pos h]
  · rw [if_neg h, getD_map_fix _ rfl]
    exact flagItem_getItemField_ne m t _ c k hk _

theorem flagColumn_sets_exact (m : String) (t : ℚ) (d : List JItem) (c : String)
    (n : ℕ) (q : ℚ)
    (hval : getItemField (d.getD n (JItem.val JVal.undef)) c = JVal.num q)
    (hnz : ¬((columnNums d c).length = 0)) :
    getItemField ((flagColumn m t d c).getD n (JItem.val JVal.undef))
      (c ++ "_isOutlier") = JVal.bool (isOutlierVal m t (columnNums d c) q) := by
  simp only [flagColumn]
  rw [if_neg hnz, getD_map_fix _ rfl]
  exact flagItem_sets m t _ c _ q hval

theorem flagColumn_skips_nonnum (m : String) (t : ℚ) (d : List JItem) (c : String)
    (n : ℕ)
    (h : ∀ q, getItemField (d.getD n (JItem.val JVal.undef)) c ≠ JVal.num q) :
    (flagColumn m t d c).getD n (JItem.val JVal.undef) =
      d.getD n (JItem.val JVal.undef) := by
  simp only [flagColumn]
  by_cases hz : (columnNums d c).length = 0
  · rw [if_pos hz]
  · rw [if_neg hz, getD_map_fix _ rfl]
    exact flagItem_skips m t _ c _ h

theorem columnNums_map_eq (g : JItem → JItem) (col : String)
    (hg : ∀ i, getItemField (g i) col = getItemField i col) (d : List JItem) :
    columnNums (d.map g) col = columnNums d col := by
  induction d with
  | nil => rfl
  | cons h tl ih =>
    simp only [columnNums, List.map_cons, List.filterMap_cons] at ih ⊢
    rw [hg h]
    cases getItemField h col <;> simp [ih]

theorem columnNums_flagColumn (m : String) (t : ℚ) (d : List JItem) (c col : String)
    (hne : col ≠ c ++ "_isOutlier") :
    columnNums (flagColumn m t d c) col = columnNums d col := by
  simp only [flagColumn]
  by_cases hz : (columnNums d c).length = 0
  · rw [if_pos hz]
  · rw [if_neg hz]
    exact columnNums_map_eq (flagItem m t _ c) col
      (fun i => flagItem_getItemField_ne m t _ c col hne i) d

theorem foldl_columnNums (m : String) (t : ℚ) (cols : List String) (d : List JItem)
    (col : String) (hne : ∀ c ∈ cols, col ≠ c ++ "_isOutlier") :
    columnNums (cols.foldl (flagColumn m t) d) col = columnNums d col := by
  induction cols generalizing d with
  | nil => rfl
  | cons c cs ih =>
    simp only [List.foldl_cons]
    rw [ih (flagColumn m t d c) (fun c' hc' => hne c' (List.mem_cons_of_mem _ hc')),
      columnNums_flagColumn m t d c col (hne c (List.mem_cons_self _ _))]

theorem mem_columnNums_getD (d : List JItem) (col : String) (n : ℕ) (q : ℚ)
    (h : getItemField (d.getD n (JItem.val JVal.undef)) col = JVal.num q) :
    q ∈ columnNums d col := by
  by_cases hn : n < d.length
  · apply List.mem_filterMap.mpr
    refine ⟨d.getD n (JItem.val JVal.undef), ?_, ?_⟩
    · rw [List.getD_eq_get _ _ hn]
      exact List.get_mem d n hn
    · rw [h]
  · rw [List.getD_eq_default _ _ (by omega)] at h
    simp [getItemField] at h

theorem foldl_flag_getItemField_ne (m : String) (t : ℚ) (cols : List String)
    (d : List JItem) (k : String) (hk : ∀ c ∈ cols, k ≠ c ++ "_isOutlier") (n : ℕ) :
    getItemField ((cols.foldl (flagColumn m t) d).getD n (JItem.val JVal.undef)) k =
      getItemField (d.getD n (JItem.val JVal.undef)) k := by
  induction cols generalizing d with
  | nil => rfl
  | cons c cs ih =>
    simp only [List.foldl_cons]
    rw [ih (flagColumn m t d c) (fun c' hc' => hk c' (List.mem_cons_of_mem _ hc')),
      flagColumn_getItemField_ne m t d c k (hk c (List.mem_cons_self _ _)) n]

theorem foldl_flag_length (m : String) (t : ℚ) (cols : List String) (d : List JItem) :
    (cols.foldl (flagColumn m t) d).length = d.length := by
  induction cols generalizing d with
  | nil => rfl
  | cons c cs ih =>
    simp only [List.foldl_cons]
    rw [ih, flagColumn_length]

theorem flagColumn_keeps_exact (m : String) (t : ℚ) (d : List JItem) (c col : String)
    (hne : col ≠ c ++ "_isOutlier") (V : List ℚ) (hV : columnNums d col = V)
    (n : ℕ) (q : ℚ)
    (hval : getItemField (d.getD n (JItem.val JVal.undef)) col = JVal.num q)
    (hflag : getItemField (d.getD n (JItem.val JVal.undef)) (col ++ "_isOutlier") =
      JVal.bool (isOutlierVal m t V q)) :
    getItemField ((flagColumn m t d c).getD n (JItem.val JVal.undef)) col = JVal.num q ∧
    getItemField ((flagColumn m t d c).getD n (JItem.val JVal.undef))
      (col ++ "_isOutlier") = JVal.bool (isOutlierVal m t V q) := by
  refine ⟨?_, ?_⟩
  · rw [flagColumn_getItemField_ne m t d c col hne n]
    exact hval
  · by_cases hc : c = col
    · subst hc
      by_cases hz : (columnNums d c).length = 0
      · simp only [flagColumn, if_pos hz]
        exact hflag
      · rw [flagColumn_sets_exact m t d c n q hval hz, hV]
    · rw [flagColumn_getItemField_ne m t d c (col ++ "_isOutlier")
        (fun hh => hc (strAppend_right_cancel hh).symm) n]
      exact hflag

theorem foldl_flag_exact (m : String) (t : ℚ) (cols : List String) (d : List JItem)
    (col : String) (hne : ∀ c ∈ cols, col ≠ c ++ "_isOutlier") (V : List ℚ)
    (hV : columnNums d col = V) (n : ℕ) (q : ℚ)
    (hval : getItemField (d.getD n (JItem.val JVal.undef)) col = JVal.num q)
    (hflag : getItemField (d.getD n (JItem.val JVal.undef)) (col ++ "_isOutlier") =
      JVal.bool (isOutlierVal m t V q)) :
    getItemField ((cols.foldl (flagColumn m t) d).getD n (JItem.val JVal.undef))
      (col ++ "_isOutlier") = JVal.bool (isOutlierVal m t V q) := by
  induction cols generalizing d with
  | nil => exact hflag
  | cons c cs ih =>
    obtain ⟨hv', hf'⟩ := flagColumn_keeps_exact m t d c col
      (hne c (List.mem_cons_self _ _)) V hV n q hval hflag
    have hV' : columnNums (flagColumn m t d c) col = V := by
      rw [columnNums_flagColumn m t d c col (hne c (List.mem_cons_self _ _)), hV]
    simp only [List.foldl_cons]
    exact ih (flagColumn m t d c) (fun c' hc' => hne c' (List.mem_cons_of_mem _ hc'))
      hV' hv' hf'

theorem foldl_flag_no_flag (m : String) (t : ℚ) (cols : List String) (d : List JItem)
    (col : String) (hne : ∀ c ∈ cols, col ≠ c ++ "_isOutlier") (n : ℕ)
    (h : ∀ q, getItemField (d.getD n (JItem.val JVal.undef)) col ≠ JVal.num q) :
    getItemField ((cols.foldl (flagColumn m t) d).getD n (JItem.val JVal.undef))
      (col ++ "_isOutlier") =
      getItemField (d.getD n (JItem.val JVal.undef)) (col ++ "_isOutlier") := by
  induction cols generalizing d with
  | nil => rfl
  | cons c cs ih =>
    simp only [List.foldl_cons]
    by_cases hc : c = col
    · subst hc
      have hskip : (flagColumn m t d c).getD n (JItem.val JVal.undef) =
          d.getD n (JItem.val JVal.undef) := flagColumn_skips_nonnum m t d c n h
      have hrec := ih (flagColumn m t d c)
        (fun c' hc' => hne c' (List.mem_cons_of_mem _ hc'))
        (fun q => by rw [hskip]; exact h q)
      rw [hrec, hskip]
    · have hval' : getItemField ((flagColumn m t d c).getD n (JItem.val JVal.undef))
          col = getItemField (d.getD n (JItem.val JVal.undef)) col :=
        flagColumn_getItemField_ne m t d c col (hne c (List.mem_cons_self _ _)) n
      have hflag' : getItemField ((flagColumn m t d c).getD n (JItem.val JVal.undef))
          (col ++ "_isOutlier") =
          getItemField (d.getD n (JItem.val JVal.undef)) (col ++ "_isOutlier") :=
        flagColumn_getItemField_ne m t d c (col ++ "_isOutlier")
          (fun hh => hc (strAppend_right_cancel hh).symm) n
      have hrec := ih (flagColumn m t d c)
        (fun c' hc' => hne c' (List.mem_cons_of_mem _ hc'))
        (fun q => by rw [hval']; exact h q)
      rw [hrec, hflag']

/-- C2 (amended): for every outlier method and threshold, and every field
`col` that is numeric in the FIRST record (`handleOutliers` collects its
columns from `data[0]` alone), the result
* keeps the dataset's length;
* on every record whose `col` value is a number `q`, sets the boolean flag
  `col_isOutlier` to exactly the outlier verdict of `q` under the method's
  bound policy computed over `columnNums data col` — the column's numeric
  values `data.map(item => item[col]).filter(v => typeof v === 'number')`;
* on every record whose `col` value is NOT a number, leaves the
  `col_isOutlier` field exactly as it was (no flag is added);
* leaves every field that is not one of the derived flag names unchanged.
The hypothesis `hflags` requires that no numeric column is itself named
like another column's flag — with such adversarial names the source
overwrites data fields. -/
theorem handleOutliers_first_record_profile (data : List JItem) (method : String)
    (t : ℚ) (col : String)
    (hcol : col ∈ numericColumnsOf data)
    (hflags : ∀ c ∈ numericColumnsOf data, ∀ c' ∈ numericColumnsOf data,
      c ≠ c' ++ "_isOutlier") :
    (handleOutliersFn data method t).length = data.length ∧
    (∀ n q, getItemField (data.getD n (JItem.val JVal.undef)) col = JVal.num q →
      getItemField ((handleOutliersFn data method t).getD n (JItem.val JVal.undef))
        (col ++ "_isOutlier") =
        JVal.bool (isOutlierVal method t (columnNums data col) q)) ∧
    (∀ n, (∀ q, getItemField (data.getD n (JItem.val JVal.undef)) col ≠ JVal.num q) →
      getItemField ((handleOutliersFn data method t).getD n (JItem.val JVal.undef))
        (col ++ "_isOutlier") =
        getItemField (data.getD n (JItem.val JVal.undef)) (col ++ "_isOutlier")) ∧
    (∀ n k, (∀ c ∈ numericColumnsOf data, k ≠ c ++ "_isOutlier") →
      getItemField ((handleOutliersFn data method t).getD n (JItem.val JVal.undef)) k =
        getItemField (data.getD n (JItem.val JVal.undef)) k) := by
  have hcolni : ∀ c ∈ numericColumnsOf data, col ≠ c ++ "_isOutlier" :=
    fun c hc => hflags col hcol c hc
  refine ⟨foldl_flag_length method t _ data, ?_, ?_, ?_⟩
  · -- numeric-valued records: the flag carries the exact verdict over the
    -- column's numeric values
    intro n q hq
    obtain ⟨pre, post, hsplit⟩ := List.append_of_mem hcol
    have hmemcols : ∀ c ∈ pre, c ∈ numericColumnsOf data := by
      intro c hc
      rw [hsplit]
      exact List.mem_append.mpr (Or.inl hc)
    have hmempost : ∀ c ∈ post, c ∈ numericColumnsOf data := by
      intro c hc
      rw [hsplit]
      exact List.mem_append.mpr (Or.inr (List.mem_cons_of_mem _ hc))
    -- the state after the columns before `col`
    set d1 := pre.foldl (flagColumn method t) data with hd1
    have hval1 : getItemField (d1.getD n (JItem.val JVal.undef)) col = JVal.num q := by
      rw [hd1, foldl_flag_getItemField_ne method t pre data col
        (fun c hc => hcolni c (hmemcols c hc)) n]
      exact hq
    -- earlier columns only write flag fields, so the column's numeric
    -- values are those of the original dataset
    have hV1 : columnNums d1 col = columnNums data col := by
      rw [hd1]
      exact foldl_columnNums method t pre data col
        (fun c hc => hcolni c (hmemcols c hc))
    -- `col` has a numeric value at index `n`, so its step runs
    have hnz : ¬((columnNums d1 col).length = 0) := by
      have hmem : q ∈ columnNums d1 col := mem_columnNums_getD d1 col n q hval1
      intro hlen
      rw [List.length_eq_zero] at hlen
      rw [hlen] at hmem
      exact List.not_mem_nil q hmem
    -- run the `col` step: the flag gets the exact verdict
    have hstep : getItemField ((flagColumn method t d1 col).getD n
        (JItem.val JVal.undef)) (col ++ "_isOutlier") =
        JVal.bool (isOutlierVal method t (columnNums data col) q) := by
      rw [flagColumn_sets_exact method t d1 col n q hval1 hnz, hV1]
    have hval2 : getItemField ((flagColumn method t d1 col).getD n
        (JItem.val JVal.undef)) col = JVal.num q := by
      rw [flagColumn_getItemField_ne method t d1 col col (hcolni col hcol) n]
      exact hval1
    have hV2 : columnNums (flagColumn method t d1 col) col = columnNums data col := by
      rw [columnNums_flagColumn method t d1 col col (hcolni col hcol), hV1]
    -- the columns after `col` keep the flag at that exact value (the
    -- column's values, hence any re-run verdict, are unchanged)
    have hfin := foldl_flag_exact method t post (flagColumn method t d1 col) col
      (fun c hc => hcolni c (hmempost c hc)) (columnNums data col) hV2 n q hval2 hstep
    rw [show handleOutliersFn data method t =
        post.foldl (flagColumn method t) (flagColumn method t d1 col) from ?_]
    · exact hfin
    · rw [handleOutliersFn, hsplit, List.foldl_append, List.foldl_cons, hd1]
  · -- non-numeric-valued records receive no flag
    intro n hq
    exact foldl_flag_no_flag method t (numericColumnsOf data) data col hcolni n hq
  · intro n k hk
    exact foldl_flag_getItemField_ne method t _ data k hk n

/-- Witness for the amended C2 on `[{a: 1}, {a: 100}]` with the IQR
method. -/
theorem handleOutliers_first_record_profile_witness :
    ("a" ∈ numericColumnsOf [JItem.obj [("a", JVal.num 1)],
      JItem.obj [("a", JVal.num 100)]] ∧
     (∀ c ∈ numericColumnsOf [JItem.obj [("a", JVal.num 1)],
        JItem.obj [("a", JVal.num 100)]],
       ∀ c' ∈ numericColumnsOf [JItem.obj [("a", JVal.num 1)],
          JItem.obj [("a", JVal.num 100)]], c ≠ c' ++ "_isOutlier")) ∧
    (handleOutliersFn [JItem.obj [("a", JVal.num 1)], JItem.obj [("a", JVal.num 100)]]
      "iqr" (mkRat 3 2)).length =
      [JItem.obj [("a", JVal.num 1)], JItem.obj [("a", JVal.num 100)]].length ∧
    (∀ n q, getItemField ([JItem.obj [("a", JVal.num 1)],
        JItem.obj [("a", JVal.num 100)]].getD n (JItem.val JVal.undef)) "a" =
        JVal.num q →
      getItemField ((handleOutliersFn [JItem.obj [("a", JVal.num 1)],
          JItem.obj [("a", JVal.num 100)]] "iqr" (mkRat 3 2)).getD n
          (JItem.val JVal.undef)) ("a" ++ "_isOutlier") =
        JVal.bool (isOutlierVal "iqr" (mkRat 3 2)
          (columnNums [JItem.obj [("a", JVal.num 1)],
            JItem.obj [("a", JVal.num 100)]] "a") q)) ∧
    (∀ n, (∀ q, getItemField ([JItem.obj [("a", JVal.num 1)],
        JItem.obj [("a", JVal.num 100)]].getD n (JItem.val JVal.undef)) "a" ≠
        JVal.num q) →
      getItemField ((handleOutliersFn [JItem.obj [("a", JVal.num 1)],
          JItem.obj [("a", JVal.num 100)]] "iqr" (mkRat 3 2)).getD n
          (JItem.val JVal.undef)) ("a" ++ "_isOutlier") =
        getItemField ([JItem.obj [("a", JVal.num 1)],
          JItem.obj [("a", JVal.num 100)]].getD n (JItem.val JVal.undef))
          ("a" ++ "_isOutlier")) ∧
    (∀ n k, (∀ c ∈ numericColumnsOf [JItem.obj [("a", JVal.num 1)],
        JItem.obj [("a", JVal.num 100)]], k ≠ c ++ "_isOutlier") →
      getItemField ((handleOutliersFn [JItem.obj [("a", JVal.num 1)],
          JItem.obj [("a", JVal.num 100)]] "iqr" (mkRat 3 2)).getD n
          (JItem.val JVal.undef)) k =
        getItemField ([JItem.obj [("a", JVal.num 1)],
          JItem.obj [("a", JVal.num 100)]].getD n (JItem.val JVal.undef)) k) := by
  obtain ⟨h1, h2, h3, h4⟩ := handleOutliers_first_record_profile
    [JItem.obj [("a", JVal.num 1)], JItem.obj [("a", JVal.num 100)]]
    "iqr" (mkRat 3 2) "a" (by decide) (by decide)
  exact ⟨⟨by decide, by decide⟩, h1, h2, h3, h4⟩
